import Mathlib

/-!
Verification of the gorm-cache library (versioned object cache over a remote
key/value store, plus a single-flight anti-penetration gate).

The Go sources are shallowly embedded below:
* `GoAtom` / `GoValue` model the dynamic (`interface{}`) argument values that
  the key builders inspect by reflection.  Collection elements are modelled as
  scalar atoms; the claims under study only exercise one level of nesting.
* `GenMd5` is a faithful executable MD5 (RFC 1321), matching `util.GenMd5`,
  applied to the code points of the rendered string (all rendered key material
  is ASCII).
* `goRender` models Go's `fmt.Sprintf("%v", ...)` on those values.  Go's `fmt`
  prints map entries sorted by key; we render the entries and sort them by the
  rendered key text, which is a deterministic function of the entry multiset
  exactly like Go's value-based ordering.
* The memcache client is a string-keyed store together with a set of keys whose
  operations fail with a transport error; `miss` is distinguished from failure.
* `CacheDaoBase` methods are translated one by one from `core` (see the doc
  comment of each definition for the Go function it embeds).  Wall-clock reads
  (`time.Now().UnixNano()/1e6`) become an explicit `now` parameter, and the
  fire-and-forget warm goroutines are applied synchronously at their spawn
  point; SQL access is modelled by an in-memory table that does not raise
  transport errors (no claim concerns SQL transport failures).
-/

namespace GormCache

set_option maxRecDepth 16384

/-! ### Small string constants used by the renderers -/

def usep : String := "_"

def sspace : String := " "

def lbrk : String := "["

def rbrk : String := "]"

def mapPfx : String := "map["

def colonSep : String := ":"

def lbrace : String := "\x7b"

def rbrace : String := "\x7d"

def commaSep : String := ","

def sjoin (l : List String) : String := String.intercalate sspace l

def ujoin (l : List String) : String := String.intercalate usep l

/-! ### MD5 (`util.GenMd5`) -/

def w32 : Nat := 4294967296

def m32 (x : Nat) : Nat := x % w32

def add32 (a b : Nat) : Nat := (a + b) % w32

def not32 (x : Nat) : Nat := x ^^^ 4294967295

def rotl32 (x s : Nat) : Nat := ((x <<< s) + (x >>> (32 - s))) % w32

def md5K : List Nat :=
  [3614090360, 3905402710, 606105819, 3250441966, 4118548399, 1200080426, 2821735955, 4249261313,
   1770035416, 2336552879, 4294925233, 2304563134, 1804603682, 4254626195, 2792965006, 1236535329,
   4129170786, 3225465664, 643717713, 3921069994, 3593408605, 38016083, 3634488961, 3889429448,
   568446438, 3275163606, 4107603335, 1163531501, 2850285829, 4243563512, 1735328473, 2368359562,
   4294588738, 2272392833, 1839030562, 4259657740, 2763975236, 1272893353, 4139469664, 3200236656,
   681279174, 3936430074, 3572445317, 76029189, 3654602809, 3873151461, 530742520, 3299628645,
   4096336452, 1126891415, 2878612391, 4237533241, 1700485571, 2399980690, 4293915773, 2240044497,
   1873313359, 4264355552, 2734768916, 1309151649, 4149444226, 3174756917, 718787259, 3951481745]

def md5S : List Nat :=
  [7, 12, 17, 22, 7, 12, 17, 22, 7, 12, 17, 22, 7, 12, 17, 22,
   5, 9, 14, 20, 5, 9, 14, 20, 5, 9, 14, 20, 5, 9, 14, 20,
   4, 11, 16, 23, 4, 11, 16, 23, 4, 11, 16, 23, 4, 11, 16, 23,
   6, 10, 15, 21, 6, 10, 15, 21, 6, 10, 15, 21, 6, 10, 15, 21]

/-- One MD5 word assembled little-endian from four bytes of the chunk. -/
def md5Word (chunk : List Nat) (j : Nat) : Nat :=
  chunk.getD (4 * j) 0 + 256 * chunk.getD (4 * j + 1) 0 +
    65536 * chunk.getD (4 * j + 2) 0 + 16777216 * chunk.getD (4 * j + 3) 0

/-- One of the 64 MD5 rounds applied to the state `(a, b, c, d)`. -/
def md5Step (chunk : List Nat) (st : Nat × Nat × Nat × Nat) (i : Nat) : Nat × Nat × Nat × Nat :=
  let a := st.1
  let b := st.2.1
  let c := st.2.2.1
  let d := st.2.2.2
  let fg : Nat × Nat :=
    if i < 16 then ((b &&& c) ||| (not32 b &&& d), i)
    else if i < 32 then ((d &&& b) ||| (not32 d &&& c), (5 * i + 1) % 16)
    else if i < 48 then (b ^^^ c ^^^ d, (3 * i + 5) % 16)
    else (c ^^^ (b ||| not32 d), (7 * i) % 16)
  let f := add32 (add32 (add32 fg.1 a) (md5K.getD i 0)) (md5Word chunk fg.2)
  (d, add32 b (rotl32 f (md5S.getD i 0)), b, c)

/-- Process one 64-byte chunk, updating the running MD5 state. -/
def md5Chunk (st : Nat × Nat × Nat × Nat) (chunk : List Nat) : Nat × Nat × Nat × Nat :=
  let r := (List.range 64).foldl (md5Step chunk) st
  (add32 st.1 r.1, add32 st.2.1 r.2.1, add32 st.2.2.1 r.2.2.1, add32 st.2.2.2 r.2.2.2)

/-- Split the padded message into 64-byte chunks (fuel-driven so that the
recursion is structural and kernel-reducible). -/
def md5ChunksAux : Nat → List Nat → List (List Nat)
  | 0, _ => []
  | _ + 1, [] => []
  | fuel + 1, l => l.take 64 :: md5ChunksAux fuel (l.drop 64)

def md5Chunks (l : List Nat) : List (List Nat) := md5ChunksAux l.length l

/-- RFC 1321 padding: a `0x80` byte, zeros to 56 mod 64, then the bit length
little-endian in 8 bytes. -/
def md5Pad (msg : List Nat) : List Nat :=
  let n := msg.length
  let zeros := (119 - n % 64) % 64
  let bitLen := (8 * n) % (w32 * w32)
  msg ++ (128 :: List.replicate zeros 0) ++
    [bitLen % 256, bitLen / 256 % 256, bitLen / 65536 % 256, bitLen / 16777216 % 256,
     bitLen / w32 % 256, bitLen / (w32 * 256) % 256, bitLen / (w32 * 65536) % 256,
     bitLen / (w32 * 16777216) % 256]

def hexChar (n : Nat) : Char :=
  if n < 10 then Char.ofNat (48 + n) else Char.ofNat (87 + n)

def byteHex (b : Nat) : List Char := [hexChar (b / 16 % 16), hexChar (b % 16)]

/-- Hex of a 32-bit word, little-endian byte order as in the MD5 digest. -/
def wordHex (w : Nat) : List Char :=
  byteHex (w % 256) ++ byteHex (w / 256 % 256) ++ byteHex (w / 65536 % 256) ++
    byteHex (w / 16777216 % 256)

def md5Bytes (msg : List Nat) : String :=
  let st := (md5Chunks (md5Pad msg)).foldl md5Chunk (1732584193, 4023233417, 2562383102, 271733878)
  String.mk (wordHex st.1 ++ wordHex st.2.1 ++ wordHex st.2.2.1 ++ wordHex st.2.2.2)

/-- `util.GenMd5`: hex MD5 of the string's bytes (key material here is ASCII,
so code points coincide with UTF-8 bytes). -/
def GenMd5 (s : String) : String := md5Bytes (s.toList.map Char.toNat)

/-! ### Dynamic argument values and Go's `%v` rendering -/

/-- A scalar Go value as it appears inside an `interface{}` argument. -/
inductive GoAtom where
  | intA (n : Int)
  | uintA (n : Nat)
  | strA (s : String)
  | boolA (b : Bool)
deriving DecidableEq

/-- `fmt.Sprintf("%v", a)` for a scalar. -/
def atomRender : GoAtom → String
  | .intA n => toString n
  | .uintA n => toString n
  | .strA s => s
  | .boolA b => toString b

/-- A Go value passed as a data-access method argument: a scalar, a slice, a
map, a struct, or the `*gorm.DB` data-access handle. -/
inductive GoValue where
  | atom (a : GoAtom)
  | seq (elems : List GoAtom)
  | mp (entries : List (GoAtom × GoAtom))
  | strct (fields : List GoAtom)
  | db
deriving DecidableEq

/-- `key a ≤ key b`: ordering elements by a string key, used to model the
sorts in `fmt`'s map printing and in `MakePenetrateKey`. -/
def keyLe (key : α → String) (a b : α) : Prop := key a ≤ key b

instance (key : α → String) : DecidableRel (keyLe key) :=
  fun a b => inferInstanceAs (Decidable (key a ≤ key b))

instance (key : α → String) : IsTotal α (keyLe key) :=
  ⟨fun a b => le_total (key a) (key b)⟩

instance (key : α → String) : IsTrans α (keyLe key) :=
  ⟨fun _ _ _ h1 h2 => le_trans h1 h2⟩

def sortByKey (key : α → String) (l : List α) : List α := List.insertionSort (keyLe key) l

def renderPair (p : String × String) : String := p.1 ++ colonSep ++ p.2

/-- `fmt.Sprintf("%v", v)`: slices render `[e1 e2 ...]`, maps render
`map[k1:v1 k2:v2]` with entries sorted by key (Go's `fmt` sorts map keys; we
sort by the rendered key text, a deterministic function of the entry multiset),
structs render `{f1 f2 ...}`. -/
def goRender : GoValue → String
  | .atom a => atomRender a
  | .seq es => lbrk ++ sjoin (es.map atomRender) ++ rbrk
  | .mp es =>
      mapPfx ++
        sjoin ((sortByKey Prod.fst (es.map (fun p => (atomRender p.1, atomRender p.2)))).map
          renderPair) ++ rbrk
  | .strct fs => lbrace ++ sjoin (fs.map atomRender) ++ rbrace
  | .db => lbrace ++ rbrace

/-- `util.GeneralToString`: slices, maps and structs (the `*gorm.DB` handle
included, being a struct pointer) stringify as the MD5 of their `%v` rendering;
scalars stringify as the rendering itself. -/
def GeneralToString (v : GoValue) : String :=
  match v with
  | .atom _ => goRender v
  | _ => GenMd5 (goRender v)



/-! ### Sorting facts shared by the fingerprint and key canonicalization proofs -/

/-- Two sorted lists that are permutations of each other and whose elements are
pairwise antisymmetric under the sort relation are equal. -/
theorem sorted_perm_eq {α : Type u} {r : α → α → Prop} {l₁ : List α} (hs₁ : l₁.Pairwise r) :
    ∀ l₂, l₁.Perm l₂ → (∀ a ∈ l₁, ∀ b ∈ l₁, r a b → r b a → a = b) →
      l₂.Pairwise r → l₁ = l₂ := by
  induction hs₁ with
  | nil =>
    intro l₂ hp _ _
    exact hp.nil_eq
  | @cons a l h₁ _ ih =>
    intro l₂ hp hanti hs₂
    have ha : a ∈ l₂ := hp.subset (List.mem_cons_self a l)
    obtain ⟨u, v, rfl⟩ := List.append_of_mem ha
    have hp' : l.Perm (u ++ v) := (List.perm_cons a).1 (hp.trans List.perm_middle)
    have hu : ∀ x ∈ u, x = a := by
      intro x hx
      have hx₁ : x ∈ a :: l := hp.symm.subset (List.mem_append_left _ hx)
      have hrxa : r x a :=
        (List.pairwise_append.1 hs₂).2.2 x hx a (List.mem_cons_self a v)
      rcases List.mem_cons.1 hx₁ with hxa | hxl
      · exact hxa
      · exact hanti x (List.mem_cons_of_mem a hxl) a (List.mem_cons_self a l) hrxa (h₁ x hxl)
    have hanti' : ∀ x ∈ l, ∀ y ∈ l, r x y → r y x → x = y := by
      intro x hx y hy
      exact hanti x (List.mem_cons_of_mem a hx) y (List.mem_cons_of_mem a hy)
    have hs₂' : (u ++ v).Pairwise r := hs₂.sublist (by simp)
    have htail : l = u ++ v := ih (u ++ v) hp' hanti' hs₂'
    rw [htail]
    clear hp hp' htail hs₂ hs₂' h₁ hanti hanti' ih ha
    induction u with
    | nil => rfl
    | cons b u ihu =>
      have hb : b = a := hu b (List.mem_cons_self b u)
      subst hb
      have := ihu (fun x hx => hu x (List.mem_cons_of_mem b hx))
      simpa using congrArg (List.cons b) this

/-- Sorting by a key is invariant under permutation when the keys are distinct. -/
theorem sortByKey_eq_of_perm {α : Type u} {key : α → String} {l₁ l₂ : List α}
    (hp : l₁.Perm l₂) (hnd : (l₁.map key).Nodup) : sortByKey key l₁ = sortByKey key l₂ := by
  apply sorted_perm_eq (List.sorted_insertionSort (keyLe key) l₁)
  · exact ((List.perm_insertionSort (keyLe key) l₁).trans hp).trans
      (List.perm_insertionSort (keyLe key) l₂).symm
  · intro a hamem b hbmem h1 h2
    have ha : a ∈ l₁ := (List.perm_insertionSort (keyLe key) l₁).subset hamem
    have hb : b ∈ l₁ := (List.perm_insertionSort (keyLe key) l₁).subset hbmem
    exact List.inj_on_of_nodup_map hnd ha hb (le_antisymm h1 h2)
  · exact List.sorted_insertionSort (keyLe key) l₂

/-- The keys of a key-sorted list are the sorted key list. -/
theorem map_key_sortByKey {α : Type u} (key : α → String) (l : List α) :
    (sortByKey key l).map key = sortByKey id (l.map key) := by
  unfold sortByKey
  exact List.map_insertionSort (keyLe key) (keyLe id) key l (fun a _ b _ => Iff.rfl)

/-- Sorting strings is invariant under permutation. -/
theorem sortStrings_eq_of_perm {l₁ l₂ : List String} (hp : l₁.Perm l₂) :
    sortByKey id l₁ = sortByKey id l₂ := by
  apply sorted_perm_eq (List.sorted_insertionSort (keyLe id) l₁)
  · exact ((List.perm_insertionSort (keyLe id) l₁).trans hp).trans
      (List.perm_insertionSort (keyLe id) l₂).symm
  · intro a _ b _ h1 h2
    exact le_antisymm h1 h2
  · exact List.sorted_insertionSort (keyLe id) l₂

/-! ### The single-flight fingerprint (`core.MakePenetrateKey`) -/

/-- The identity of a proxied function: its fully-qualified name
(`runtime.FuncForPC(...).Name()`) and its arity (`reflect.Type.NumIn`). -/
structure GoFunc where
  name : String
  numIn : Nat

/-- `%v` of one `SortEntry{Key, Value}` record. -/
def penetrateEntryRender (p : String × GoAtom) : String :=
  lbrace ++ p.1 ++ sspace ++ atomRender p.2 ++ rbrace

/-- The per-argument stringification inside `MakePenetrateKey`: structs digest
their rendering; slices digest the rendering of the elements sorted by their
own rendering; maps digest the rendering of the `SortEntry` array sorted by
the rendered key; scalars render directly. -/
def penetrateArgStr (v : GoValue) : String :=
  match v with
  | .atom a => atomRender a
  | .seq es => GenMd5 (lbrk ++ sjoin ((sortByKey atomRender es).map atomRender) ++ rbrk)
  | .mp es =>
      GenMd5 (lbrk ++
        sjoin ((sortByKey Prod.fst (es.map (fun p => (atomRender p.1, p.2)))).map
          penetrateEntryRender) ++ rbrk)
  | .strct _ => GenMd5 (goRender v)
  | .db => GenMd5 (goRender v)

/-- `core.MakePenetrateKey`: fails when the argument count does not match the
function's arity, else concatenates the function name with every argument's
stringification, separated by underscores. -/
def MakePenetrateKey (f : GoFunc) (inputValues : List GoValue) : Except Unit String :=
  if inputValues.length ≠ f.numIn then .error ()
  else .ok ((inputValues.map penetrateArgStr).foldl (fun acc s => acc ++ usep ++ s) f.name)

/-- Two argument values that differ only in the iteration order of a slice or
of a map (equal as multisets; map keys render distinctly, as Go map keys do). -/
def argReorder (a b : GoValue) : Prop :=
  a = b ∨
    (∃ xs ys, a = GoValue.seq xs ∧ b = GoValue.seq ys ∧ xs.Perm ys) ∨
    (∃ es fs, a = GoValue.mp es ∧ b = GoValue.mp fs ∧ es.Perm fs ∧
      (es.map (fun p => atomRender p.1)).Nodup)

theorem penetrateArgStr_eq_of_reorder {a b : GoValue} (h : argReorder a b) :
    penetrateArgStr a = penetrateArgStr b := by
  rcases h with rfl | ⟨xs, ys, rfl, rfl, hp⟩ | ⟨es, fs, rfl, rfl, hp, hnd⟩
  · rfl
  · have hmap : (sortByKey atomRender xs).map atomRender =
        (sortByKey atomRender ys).map atomRender := by
      rw [map_key_sortByKey, map_key_sortByKey]
      exact sortStrings_eq_of_perm (hp.map atomRender)
    simp only [penetrateArgStr, hmap]
  · have hnd' : ((es.map (fun p => (atomRender p.1, p.2))).map Prod.fst).Nodup := by
      rw [List.map_map]
      exact hnd
    have hsorted : sortByKey Prod.fst (es.map (fun p => (atomRender p.1, p.2))) =
        sortByKey Prod.fst (fs.map (fun p => (atomRender p.1, p.2))) :=
      sortByKey_eq_of_perm (hp.map _) hnd'
    simp only [penetrateArgStr, hsorted]
/-! ### The remote cache client (`MemcacheClient`) -/

def emptyStr : String := ""

/-- The remote cache: the stored entries, plus the set of keys whose
operations currently fail with a transport error (a `miss` on an absent key is
not a transport error). -/
structure KV where
  store : List (String × String)
  failing : List String
deriving DecidableEq

def kvFails (kv : KV) (k : String) : Bool := kv.failing.contains k

def kvLookup (kv : KV) (k : String) : Option String :=
  (kv.store.find? (fun p => p.1 == k)).map (fun p => p.2)

inductive FetchRes where
  | hit (v : String)
  | miss
  | fail
deriving DecidableEq

/-- `MemcacheClient.Get`. -/
def kvGet (kv : KV) (k : String) : FetchRes :=
  if kvFails kv k then .fail
  else
    match kvLookup kv k with
    | some v => .hit v
    | none => .miss

def storeErase (st : List (String × String)) (k : String) : List (String × String) :=
  st.filter (fun p => p.1 != k)

/-- `MemcacheClient.Set`. -/
def kvSet (kv : KV) (k v : String) : Except Unit KV :=
  if kvFails kv k then .error ()
  else .ok ⟨(k, v) :: storeErase kv.store k, kv.failing⟩

/-- `MemcacheClient.Delete`. -/
def kvDelete (kv : KV) (k : String) : Except Unit KV :=
  if kvFails kv k then .error ()
  else .ok ⟨storeErase kv.store k, kv.failing⟩

inductive AddRes where
  | stored (kv : KV)
  | notStored
  | fail

/-- `MemcacheClient.Add`: set-if-absent with a distinguished `ErrNotStored`. -/
def kvAdd (kv : KV) (k v : String) : AddRes :=
  if kvFails kv k then .fail
  else
    match kvLookup kv k with
    | some _ => .notStored
    | none => .stored ⟨(k, v) :: storeErase kv.store k, kv.failing⟩

def dedupKeys (seen : List String) : List String → List String
  | [] => []
  | k :: ks => if k ∈ seen then dedupKeys seen ks else k :: dedupKeys (k :: seen) ks

/-- `MemcacheClient.GetMulti`: the found entries among the requested keys (a
Go map, modelled as an association list over the distinct keys in request
order); a transport failure on any key fails the whole call. -/
def kvGetMulti (kv : KV) (ks : List String) : Except Unit (List (String × String)) :=
  if ks.any (kvFails kv) then .error ()
  else .ok ((dedupKeys [] ks).filterMap (fun k => (kvLookup kv k).map (fun v => (k, v))))

/-! ### Records, schema and the `CacheDaoBase` state -/

inductive CErr where
  | illegalId
  | codec
  | transport
  | noListArg
  | lenMismatch
  | wrongHandle
  | noMethod
  | badJson
  | noArgs
deriving DecidableEq

/-- A database record: the primary-key field (`Id`/`ID`, a `uint64`) plus the
other fields, kept in their rendered string form (the cache only ever reads
them through `util.GetFieldStringValue`). -/
structure Rec where
  id : Nat
  attrs : List (String × String)
deriving DecidableEq

/-- `core.NotifyInfo`. -/
structure NotifyInfo where
  ntype : String
  fields : List String
  argIdx : List Nat
  versionKeyPrefix : String
deriving DecidableEq

/-- The initialized `CacheDaoBase` together with its external collaborators:
the declared parameter-type names per SQL method (`util.GetMetodParameterList`),
the SQL table backing `sqlGetById`/`sqlGetByIds`, the reflective SQL method
dispatch (`util.ReflectInvokeMethod` on the SQL dao) and the injectable
serializer pair. -/
structure Dao where
  objectCachePrefix : String
  notifyInfos : List NotifyInfo
  methodMap : List (String × NotifyInfo)
  paramTypes : String → List String
  sqlTable : List Rec
  sqlQuery : String → List GoValue → List Rec
  ser : Rec → Except Unit String
  deser : String → Except Unit Rec

/-- The parameter-type name that marks the data-access handle
(`PkgPath() + "_" + Name()` of `gorm.DB`). -/
def dbTypeName : String := "gorm.io/gorm_DB"

def vpfx : String := "V_"

def defaultArg : GoValue := GoValue.atom (GoAtom.strA emptyStr)

/-- `util.GetFieldStringValue` on a modelled record (absent field: empty). -/
def recField (r : Rec) (f : String) : String :=
  (((r.attrs.find? (fun p => p.1 == f)).map (fun p => p.2))).getD emptyStr

/-- `util.GetFieldsStringValues`. -/
def GetFieldsStringValues (r : Rec) (fields : List String) : List String :=
  fields.map (recField r)

def charDigit? (c : Char) : Option Nat :=
  if 48 ≤ c.toNat && c.toNat ≤ 57 then some (c.toNat - 48) else none

def parseAux : Nat → List Char → Option Nat
  | n, [] => some n
  | n, c :: cs =>
      match charDigit? c with
      | some dd => parseAux (n * 10 + dd) cs
      | none => none

/-- Decimal parse of a character list (`none` when empty or non-numeric),
kernel-computable unlike `String.toNat?`. -/
def parseNatCore : List Char → Option Nat
  | [] => none
  | cs => parseAux 0 cs

/-- `util.ConvertStringToUNumber` (`strconv.ParseUint`; failure yields 0). -/
def toUNum (s : String) : Nat := (parseNatCore s.toList).getD 0

/-- `util.ConvertStringToNumber` (`strconv.ParseInt`; failure yields 0). -/
def toNum (s : String) : Int :=
  match s.toList with
  | '-' :: rest =>
      match parseNatCore rest with
      | some n => -(n : Int)
      | none => 0
  | '+' :: rest => (((parseNatCore rest)).map (Int.ofNat)).getD 0
  | cs => (((parseNatCore cs)).map (Int.ofNat)).getD 0

def splitCharsAux (sep : Char) (cur : List Char) : List Char → List (List Char)
  | [] => [cur.reverse]
  | c :: cs =>
      if c = sep then cur.reverse :: splitCharsAux sep [] cs
      else splitCharsAux sep (c :: cur) cs

/-- `strings.Split(s, "_")`, kernel-computable unlike `String.splitOn`. -/
def usplit (s : String) : List String := (splitCharsAux '_' [] s.toList).map String.mk

/-- `MakeObjectKey`. -/
def MakeObjectKey (d : Dao) (id : Nat) (version : String) : String :=
  d.objectCachePrefix ++ usep ++ toString id ++ usep ++ version

/-- `MakeObjectVersionKey`. -/
def MakeObjectVersionKey (d : Dao) (id : Nat) : String :=
  vpfx ++ d.objectCachePrefix ++ usep ++ toString id

/-- `ResolveIdFromObjectVersionKey`: the last underscore-component. -/
def ResolveIdFromObjectVersionKey (k : String) : Nat :=
  toUNum ((((usplit k).getLast?)).getD emptyStr)

/-- `ResolveIdFromObjectCacheKey`: the second-to-last underscore-component. -/
def ResolveIdFromObjectCacheKey (k : String) : Nat :=
  toUNum ((usplit k).getD ((usplit k).length - 2) emptyStr)

/-- `GetObjectVersion`: a miss is the empty token, transport errors propagate. -/
def GetObjectVersion (d : Dao) (kv : KV) (id : Nat) : Except CErr String :=
  match kvGet kv (MakeObjectVersionKey d id) with
  | .hit v => .ok v
  | .miss => .ok emptyStr
  | .fail => .error .transport

/-- `GetObjectKey`. -/
def GetObjectKey (d : Dao) (kv : KV) (id : Nat) : Except CErr String :=
  match GetObjectVersion d kv id with
  | .error e => .error e
  | .ok v => if v = emptyStr then .ok emptyStr else .ok (MakeObjectKey d id v)

/-- `GetObjectVersions`. -/
def GetObjectVersions (d : Dao) (kv : KV) (ids : List Nat) :
    Except CErr (List (Nat × String)) :=
  match kvGetMulti kv (ids.map (MakeObjectVersionKey d)) with
  | .error _ => .error .transport
  | .ok items => .ok (items.map (fun p => (ResolveIdFromObjectVersionKey p.1, p.2)))

/-- `GetObjectKeys`. -/
def GetObjectKeys (d : Dao) (kv : KV) (ids : List Nat) :
    Except CErr (List (Nat × String)) :=
  match GetObjectVersions d kv ids with
  | .error e => .error e
  | .ok versions => .ok (versions.map (fun p => (p.1, MakeObjectKey d p.1 p.2)))

/-- `MakeVersionKey`. -/
def MakeVersionKey (versionKeyPrefix : String) (fieldStrValues : List String) : String :=
  ujoin (versionKeyPrefix :: fieldStrValues)

/-- `MethodNotifyInfoMap` lookup. -/
def methodInfo (d : Dao) (m : String) : Option NotifyInfo :=
  ((d.methodMap.find? (fun p => p.1 == m))).map (fun p => p.2)

/-- `MakeMethodVersionKey`: unknown methods error; otherwise the version key
joins the prefix with the stringified governed argument values. -/
def MakeMethodVersionKey (d : Dao) (m : String) (args : List GoValue) : Except CErr String :=
  match methodInfo d m with
  | none => .error .noMethod
  | some info =>
      .ok (MakeVersionKey info.versionKeyPrefix
        (info.argIdx.map (fun i => GeneralToString (args.getD i defaultArg))))

/-- `GetVersion`: the method version token; a miss is the empty token. -/
def GetVersion (d : Dao) (kv : KV) (m : String) (args : List GoValue) : Except CErr String :=
  match MakeMethodVersionKey d m args with
  | .error e => .error e
  | .ok vk =>
      match kvGet kv vk with
      | .hit v => .ok v
      | .miss => .ok emptyStr
      | .fail => .error .transport

/-- `MakeKey`. -/
def MakeKey (keyPrefix version : String) : String := keyPrefix ++ usep ++ version

/-- `MakeKeyPrefix`: the method name followed by each argument's
stringification, skipping parameters declared with the handle type. -/
def MakeKeyPrefix (d : Dao) (m : String) (args : List GoValue) : String :=
  ujoin (m :: (d.paramTypes m).enum.filterMap (fun p =>
    if p.2 == dbTypeName then none else some (GeneralToString (args.getD p.1 defaultArg))))

/-- `JoinArgs` (like `MakeKeyPrefix` without the method name). -/
def JoinArgs (d : Dao) (m : String) (args : List GoValue) : String :=
  ujoin ((d.paramTypes m).enum.filterMap (fun p =>
    if p.2 == dbTypeName then none else some (GeneralToString (args.getD p.1 defaultArg))))

/-- `GetKey`: empty when the method version is missing. -/
def GetKey (d : Dao) (kv : KV) (m : String) (args : List GoValue) : Except CErr String :=
  match GetVersion d kv m args with
  | .error e => .error e
  | .ok v => if v = emptyStr then .ok emptyStr else .ok (MakeKey (MakeKeyPrefix d m args) v)

/-- `GetVersions`: batch method-version fetch, keyed by `JoinArgs`; tuples
whose version key cannot be built are skipped. -/
def GetVersions (d : Dao) (kv : KV) (m : String) (paramArrays : List (List GoValue)) :
    Except CErr (List (String × String)) :=
  let pairs := paramArrays.filterMap (fun tup =>
    match MakeMethodVersionKey d m tup with
    | .error _ => none
    | .ok vk => some (vk, JoinArgs d m tup))
  match kvGetMulti kv (pairs.map (fun p => p.1)) with
  | .error _ => .error .transport
  | .ok items =>
      .ok (items.filterMap (fun it =>
        ((pairs.find? (fun p => p.1 == it.1))).map (fun p => (p.2, it.2))))

/-! ### Object cache -/

/-- `SetObjectVersion`. -/
def SetObjectVersion (d : Dao) (kv : KV) (id : Nat) (ts : Int) : Except CErr Unit × KV :=
  match kvSet kv (MakeObjectVersionKey d id) (toString ts) with
  | .error _ => (.error .transport, kv)
  | .ok kv1 => (.ok (), kv1)

/-- `SetObjectCache`: serialize, store the body under the object key stamped
with `now`, then advertise the same stamp at the object version key. -/
def SetObjectCache (d : Dao) (kv : KV) (now : Int) (obj : Rec) : Except CErr Unit × KV :=
  let objCacheKey := MakeObjectKey d obj.id (toString now)
  match d.ser obj with
  | .error _ => (.error .codec, kv)
  | .ok objData =>
      match kvSet kv objCacheKey objData with
      | .error _ => (.error .transport, kv)
      | .ok kv1 => SetObjectVersion d kv1 obj.id now

/-- `sqlGetById` (`gorm.ErrRecordNotFound` becomes `none`). -/
def sqlGetById (d : Dao) (id : Nat) : Option Rec :=
  d.sqlTable.find? (fun r => r.id == id)

/-- `sqlGetByIds` (`WHERE id IN ?`, rows in table order). -/
def sqlGetByIds (d : Dao) (ids : List Nat) : List Rec :=
  d.sqlTable.filter (fun r => ids.contains r.id)

/-- `SetOjectCaches` [sic]: warm every record, ignoring per-record errors. -/
def SetOjectCaches (d : Dao) (kv : KV) (now : Int) (objList : List Rec) : KV :=
  objList.foldl (fun acc r => (SetObjectCache d acc now r).2) kv

/-- `SetObjectCacheForGetById`: SQL then best-effort warm. -/
def SetObjectCacheForGetById (d : Dao) (kv : KV) (now : Int) (id : Nat) :
    Except CErr (Option Rec) × KV :=
  match sqlGetById d id with
  | none => (.ok none, kv)
  | some r => (.ok (some r), (SetObjectCache d kv now r).2)

/-- `SetObjectCachesForGetByIds`: SQL then an asynchronous warm (the
fire-and-forget goroutine is applied synchronously here). -/
def SetObjectCachesForGetByIds (d : Dao) (kv : KV) (now : Int) (ids : List Nat) :
    Except CErr (List Rec) × KV :=
  let objList := sqlGetByIds d ids
  (.ok objList, SetOjectCaches d kv now objList)

/-- The cache-consulting path of `GetById` (everything after the id guard):
version miss or any cache failure falls back to SQL; a deserialization failure
is fatal to the call. -/
def getByIdLookup (d : Dao) (kv : KV) (now : Int) (id : Nat) :
    Except CErr (Option Rec) × KV :=
  match GetObjectKey d kv id with
  | .error _ => SetObjectCacheForGetById d kv now id
  | .ok objCacheKey =>
      if objCacheKey = emptyStr then SetObjectCacheForGetById d kv now id
      else
        match kvGet kv objCacheKey with
        | .hit v =>
            match d.deser v with
            | .error _ => (.error .codec, kv)
            | .ok r => (.ok (some r), kv)
        | _ => SetObjectCacheForGetById d kv now id

/-- `GetById` (`id` is a `uint64`, so `id <= 0` means `id = 0`). -/
def GetById (d : Dao) (kv : KV) (now : Int) (id : Nat) : Except CErr (Option Rec) × KV :=
  if id = 0 then (.error .illegalId, kv) else getByIdLookup d kv now id

/-! ### Elementary facts about the client model -/

instance {ε α : Type u} [DecidableEq ε] [DecidableEq α] : DecidableEq (Except ε α) := fun x y =>
  match x, y with
  | .ok a, .ok b =>
      if h : a = b then .isTrue (by rw [h]) else .isFalse (fun hh => h (Except.ok.inj hh))
  | .error a, .error b =>
      if h : a = b then .isTrue (by rw [h]) else .isFalse (fun hh => h (Except.error.inj hh))
  | .ok _, .error _ => .isFalse (fun hh => Except.noConfusion hh)
  | .error _, .ok _ => .isFalse (fun hh => Except.noConfusion hh)

theorem find?_storeErase (st : List (String × String)) (k x : String) (h : x ≠ k) :
    (storeErase st k).find? (fun p => p.1 == x) = st.find? (fun p => p.1 == x) := by
  induction st with
  | nil => rfl
  | cons a st ih =>
    unfold storeErase at ih ⊢
    rw [List.filter_cons]
    by_cases hak : a.1 = k
    · have hne : (a.1 != k) = false := by simp [hak]
      have hax : (a.1 == x) = false := by
        have : a.1 ≠ x := by rw [hak]; exact fun hh => h hh.symm
        simp [this]
      rw [hne, List.find?_cons, hax]
      simp only [Bool.false_eq_true, if_false]
      exact ih
    · have hne : (a.1 != k) = true := by simp [hak]
      rw [hne]
      simp only [if_true]
      rw [List.find?_cons, List.find?_cons]
      cases hax : (a.1 == x) with
      | true => rfl
      | false => exact ih

/-- The state produced by a successful `Set`. -/
def kvSetState (kv : KV) (k v : String) : KV :=
  ⟨(k, v) :: storeErase kv.store k, kv.failing⟩

/-- The state produced by a successful `Delete`. -/
def kvEraseState (kv : KV) (k : String) : KV :=
  ⟨storeErase kv.store k, kv.failing⟩

theorem kvSet_ok {kv : KV} {k : String} (h : kvFails kv k = false) (v : String) :
    kvSet kv k v = .ok (kvSetState kv k v) := by
  unfold kvSet kvSetState
  rw [h]
  rfl

theorem kvDelete_ok {kv : KV} {k : String} (h : kvFails kv k = false) :
    kvDelete kv k = .ok (kvEraseState kv k) := by
  unfold kvDelete kvEraseState
  rw [h]
  rfl

theorem kvSetState_failing (kv : KV) (k v : String) :
    (kvSetState kv k v).failing = kv.failing := rfl

theorem kvFails_kvSetState (kv : KV) (k v x : String) :
    kvFails (kvSetState kv k v) x = kvFails kv x := rfl

theorem kvLookup_kvSetState (kv : KV) (k v x : String) :
    kvLookup (kvSetState kv k v) x = if x = k then some v else kvLookup kv x := by
  by_cases hx : x = k
  · subst hx
    simp [kvLookup, kvSetState, List.find?_cons]
  · unfold kvLookup kvSetState
    have hkx : (k == x) = false := by
      simp only [beq_eq_false_iff_ne, ne_eq]
      exact fun hh => hx hh.symm
    simp only [List.find?_cons, hkx, if_neg hx]
    rw [find?_storeErase kv.store k x hx]

theorem kvLookup_kvEraseState (kv : KV) (k x : String) :
    kvLookup (kvEraseState kv k) x = if x = k then none else kvLookup kv x := by
  by_cases hx : x = k
  · subst hx
    unfold kvLookup kvEraseState
    have : (storeErase kv.store x).find? (fun p => p.1 == x) = none := by
      rw [List.find?_eq_none]
      intro p hp
      have := List.of_mem_filter hp
      simpa [beq_eq_false_iff_ne] using this
    simp [this]
  · unfold kvLookup kvEraseState
    simp only [if_neg hx]
    rw [find?_storeErase kv.store k x hx]

theorem kvAdd_notStored {kv : KV} {k : String} (hf : kvFails kv k = false) {w : String}
    (hl : kvLookup kv k = some w) (v : String) : kvAdd kv k v = .notStored := by
  unfold kvAdd
  rw [hf, hl]
  rfl

theorem kvAdd_stored {kv : KV} {k : String} (hf : kvFails kv k = false)
    (hl : kvLookup kv k = none) (v : String) : kvAdd kv k v = .stored (kvSetState kv k v) := by
  unfold kvAdd kvSetState
  rw [hf, hl]
  rfl

theorem setObjectVersion_failing (d : Dao) (kv : KV) (id : Nat) (ts : Int) :
    ((SetObjectVersion d kv id ts).2).failing = kv.failing := by
  unfold SetObjectVersion kvSet
  by_cases h : kvFails kv (MakeObjectVersionKey d id) <;> simp [h, kvSetState]

theorem setObjectCache_failing (d : Dao) (kv : KV) (now : Int) (obj : Rec) :
    ((SetObjectCache d kv now obj).2).failing = kv.failing := by
  unfold SetObjectCache
  cases hser : d.ser obj with
  | error e => simp
  | ok data =>
    dsimp only
    by_cases h : kvFails kv (MakeObjectKey d obj.id (toString now))
    · simp [kvSet, h]
    · rw [kvSet_ok (by simpa using h)]
      simp only []
      rw [setObjectVersion_failing]
      rfl

theorem setObjectCache_lookup_other (d : Dao) (kv : KV) (now : Int) (obj : Rec) (x : String)
    (h1 : x ≠ MakeObjectKey d obj.id (toString now))
    (h2 : x ≠ MakeObjectVersionKey d obj.id) :
    kvLookup (SetObjectCache d kv now obj).2 x = kvLookup kv x := by
  unfold SetObjectCache
  cases hser : d.ser obj with
  | error e => rfl
  | ok data =>
    dsimp only
    by_cases hb : kvFails kv (MakeObjectKey d obj.id (toString now))
    · simp [kvSet, hb]
    · rw [kvSet_ok (by simpa using hb)]
      simp only []
      unfold SetObjectVersion
      by_cases hv : kvFails kv (MakeObjectVersionKey d obj.id)
      · rw [show kvSet (kvSetState kv (MakeObjectKey d obj.id (toString now)) data)
            (MakeObjectVersionKey d obj.id) (toString now) = .error () from by
          unfold kvSet
          rw [kvFails_kvSetState, hv]
          rfl]
        simp only []
        rw [kvLookup_kvSetState, if_neg h1]
      · rw [kvSet_ok (by rw [kvFails_kvSetState]; simpa using hv)]
        simp only []
        rw [kvLookup_kvSetState, if_neg h2, kvLookup_kvSetState, if_neg h1]

/-! ### Witness fixtures: one concrete schema, record and client state -/

def wName : String := "a"

def wPrefix : String := "User"

def wMethod : String := "FindByName"

def wField : String := "Name"

def intType : String := "int"

def cConcrete : String := "concrete"

def wInfo : NotifyInfo :=
  { ntype := cConcrete, fields := [wField], argIdx := [1], versionKeyPrefix := vpfx ++ wPrefix }

def wRec : Rec := { id := 7, attrs := [(wField, wName)] }

def wSer (r : Rec) : Except Unit String := .ok (toString r.id)

def wDeser (s : String) : Except Unit Rec :=
  match parseNatCore s.toList with
  | some n => .ok { id := n, attrs := [] }
  | none => .error ()

def wDao : Dao :=
  { objectCachePrefix := wPrefix, notifyInfos := [wInfo], methodMap := [(wMethod, wInfo)],
    paramTypes := fun _ => [dbTypeName, intType], sqlTable := [wRec],
    sqlQuery := fun _ _ => [], ser := wSer, deser := wDeser }

def wDaoBad : Dao := { wDao with ser := fun _ => .error () }

def wkv0 : KV := { store := [], failing := [] }

def wArgs : List GoValue := [GoValue.db, GoValue.atom (GoAtom.strA wName)]

def wVKey : String := vpfx ++ wPrefix ++ usep ++ wName

def wkvF : KV := { store := [], failing := [MakeObjectVersionKey wDao 5, wVKey] }

/-! ### C9 -/

/-- C9: reading an object version or a method version whose key misses in the
remote cache yields the empty token with no error, while a transport failure
on that key propagates as an error. -/
theorem version_read_policy (d : Dao) (kv : KV) (id : Nat) (m : String)
    (args : List GoValue) (vk : String) (hvk : MakeMethodVersionKey d m args = .ok vk) :
    (kvGet kv (MakeObjectVersionKey d id) = .miss → GetObjectVersion d kv id = .ok emptyStr) ∧
    (kvGet kv (MakeObjectVersionKey d id) = .fail →
      GetObjectVersion d kv id = .error .transport) ∧
    (kvGet kv vk = .miss → GetVersion d kv m args = .ok emptyStr) ∧
    (kvGet kv vk = .fail → GetVersion d kv m args = .error .transport) := by
  refine ⟨?_, ?_, ?_, ?_⟩ <;> intro h <;> simp [GetObjectVersion, GetVersion, hvk, h]

theorem version_read_policy_witness :
    GetObjectVersion wDao wkv0 5 = .ok emptyStr ∧
    GetObjectVersion wDao wkvF 5 = .error .transport ∧
    GetVersion wDao wkv0 wMethod wArgs = .ok emptyStr ∧
    GetVersion wDao wkvF wMethod wArgs = .error .transport := by
  refine ⟨?_, ?_, ?_, ?_⟩
  · exact (version_read_policy wDao wkv0 5 wMethod wArgs wVKey (by decide)).1 (by decide)
  · exact (version_read_policy wDao wkvF 5 wMethod wArgs wVKey (by decide)).2.1 (by decide)
  · exact (version_read_policy wDao wkv0 5 wMethod wArgs wVKey (by decide)).2.2.1 (by decide)
  · exact (version_read_policy wDao wkvF 5 wMethod wArgs wVKey (by decide)).2.2.2 (by decide)

/-! ### C10 -/

/-- C10: `GetById 0` fails immediately with the illegal-id error, leaving the
cache untouched and with an outcome independent of the cache and SQL state;
only positive ids proceed to the cache-lookup path. -/
theorem getById_zero_guard (d d2 : Dao) (kv kv2 : KV) (now now2 : Int) (id : Nat)
    (hid : 0 < id) :
    GetById d kv now 0 = (.error .illegalId, kv) ∧
    (GetById d kv now 0).1 = (GetById d2 kv2 now2 0).1 ∧
    GetById d kv now id = getByIdLookup d kv now id := by
  refine ⟨by simp [GetById], by simp [GetById], ?_⟩
  simp [GetById, Nat.pos_iff_ne_zero.mp hid]

theorem getById_zero_guard_witness :
    GetById wDao wkv0 100 0 = (.error .illegalId, wkv0) ∧
    GetById wDao wkv0 100 7 = getByIdLookup wDao wkv0 100 7 :=
  ⟨(getById_zero_guard wDao wDao wkv0 wkv0 100 100 7 (by decide)).1,
   (getById_zero_guard wDao wDao wkv0 wkv0 100 100 7 (by decide)).2.2⟩

/-! ### C5 -/

/-- C5: `SetObjectCache` serializes the record, writes the body under the
object key stamped with a single timestamp token, and only then writes that
same token to the object version key; a serialization or body-write failure
surfaces as the returned error with the store (hence the version key)
unchanged. -/
theorem setObjectCache_body_before_version (d : Dao) (kv : KV) (now : Int) (obj : Rec)
    (hkey : MakeObjectKey d obj.id (toString now) ≠ MakeObjectVersionKey d obj.id) :
    (∀ e, d.ser obj = .error e → SetObjectCache d kv now obj = (.error .codec, kv)) ∧
    (∀ data, d.ser obj = .ok data →
      kvFails kv (MakeObjectKey d obj.id (toString now)) = true →
      SetObjectCache d kv now obj = (.error .transport, kv)) ∧
    (∀ data, d.ser obj = .ok data →
      kvFails kv (MakeObjectKey d obj.id (toString now)) = false →
      kvFails kv (MakeObjectVersionKey d obj.id) = false →
      (SetObjectCache d kv now obj).1 = .ok () ∧
      kvLookup (SetObjectCache d kv now obj).2 (MakeObjectKey d obj.id (toString now)) =
        some data ∧
      kvLookup (SetObjectCache d kv now obj).2 (MakeObjectVersionKey d obj.id) =
        some (toString now)) := by
  refine ⟨?_, ?_, ?_⟩
  · intro e he
    simp [SetObjectCache, he]
  · intro data hdata hfail
    simp [SetObjectCache, hdata, kvSet, hfail]
  · intro data hdata hbody hver
    unfold SetObjectCache
    rw [hdata]
    dsimp only
    rw [kvSet_ok hbody]
    dsimp only
    unfold SetObjectVersion
    rw [kvSet_ok (show kvFails (kvSetState kv (MakeObjectKey d obj.id (toString now)) data)
      (MakeObjectVersionKey d obj.id) = false from hver)]
    dsimp only
    refine ⟨rfl, ?_, ?_⟩
    · rw [kvLookup_kvSetState, if_neg hkey, kvLookup_kvSetState, if_pos rfl]
    · rw [kvLookup_kvSetState, if_pos rfl]

theorem setObjectCache_body_before_version_witness :
    SetObjectCache wDaoBad wkv0 100 wRec = (.error .codec, wkv0) ∧
    (SetObjectCache wDao wkv0 100 wRec).1 = .ok () ∧
    kvLookup (SetObjectCache wDao wkv0 100 wRec).2 (MakeObjectKey wDao 7 (toString (100 : Int))) =
      some (toString (7 : Nat)) ∧
    kvLookup (SetObjectCache wDao wkv0 100 wRec).2 (MakeObjectVersionKey wDao 7) =
      some (toString (100 : Int)) := by
  have h1 := (setObjectCache_body_before_version wDaoBad wkv0 100 wRec (by decide)).1 () rfl
  have h2 := (setObjectCache_body_before_version wDao wkv0 100 wRec (by decide)).2.2
    (toString (7 : Nat)) rfl rfl rfl
  exact ⟨h1, h2.1, h2.2.1, h2.2.2⟩

/-! ### Invalidation (`NotifyModified`) -/

/-- `UpdateVersion`: unconditional overwrite of a version key with `now`. -/
def UpdateVersion (d : Dao) (kv : KV) (now : Int) (versionKey : String) :
    Except CErr Unit × KV :=
  match kvSet kv versionKey (toString now) with
  | .error _ => (.error .transport, kv)
  | .ok kv1 => (.ok (), kv1)

/-- The object key `NotifyModified` deletes; an error from the version fetch
is only logged, leaving the key empty. -/
def notifyObjectKey (d : Dao) (kv : KV) (id : Nat) : String :=
  match GetObjectKey d kv id with
  | .ok k => k
  | .error _ => emptyStr

/-- The version key derived from one `NotifyInfo` and the record's fields. -/
def notifyVersionKey (info : NotifyInfo) (obj : Rec) : String :=
  MakeVersionKey info.versionKeyPrefix (GetFieldsStringValues obj info.fields)

/-- The version-bumping loop of `NotifyModified` (a write failure is only
logged and the loop continues). -/
def notifyFold (d : Dao) (now : Int) (obj : Rec) (infos : List NotifyInfo) (kv : KV) : KV :=
  infos.foldl (fun acc info => (UpdateVersion d acc now (notifyVersionKey info obj)).2) kv

/-- `NotifyModified`: best-effort delete of the current object key, then bump
every schema version key to `now`; always returns nil. -/
def NotifyModified (d : Dao) (kv : KV) (now : Int) (curDo : Option Rec) :
    Except CErr Unit × KV :=
  match curDo with
  | none => (.ok (), kv)
  | some obj =>
      let kv1 := match kvDelete kv (notifyObjectKey d kv obj.id) with
        | .ok kv2 => kv2
        | .error _ => kv
      (.ok (), notifyFold d now obj d.notifyInfos kv1)

theorem kvFails_kvEraseState (kv : KV) (k x : String) :
    kvFails (kvEraseState kv k) x = kvFails kv x := rfl

theorem updateVersion_failing (d : Dao) (kv : KV) (now : Int) (vk : String) :
    ((UpdateVersion d kv now vk).2).failing = kv.failing := by
  unfold UpdateVersion
  by_cases h : kvFails kv vk
  · simp [kvSet, h]
  · rw [kvSet_ok (by simpa using h)]
    rfl

theorem kvFails_congr {kv kv' : KV} (h : kv'.failing = kv.failing) :
    kvFails kv' = kvFails kv := by
  funext k
  unfold kvFails
  rw [h]

theorem updateVersion_lookup (d : Dao) (kv : KV) (now : Int) (vk x : String) :
    kvLookup (UpdateVersion d kv now vk).2 x =
      if kvFails kv vk = false ∧ x = vk then some (toString now) else kvLookup kv x := by
  unfold UpdateVersion
  by_cases h : kvFails kv vk
  · simp [kvSet, h]
  · have hf : kvFails kv vk = false := by simpa using h
    rw [kvSet_ok hf]
    dsimp only
    rw [kvLookup_kvSetState]
    by_cases hx : x = vk
    · simp [hx, hf]
    · simp [hx, hf]

theorem notifyFold_failing (d : Dao) (now : Int) (obj : Rec) (infos : List NotifyInfo) :
    ∀ kv, (notifyFold d now obj infos kv).failing = kv.failing := by
  induction infos with
  | nil => intro kv; rfl
  | cons a rest ih =>
    intro kv
    show (notifyFold d now obj rest _).failing = _
    rw [ih, updateVersion_failing]

theorem notifyFold_preserve (d : Dao) (now : Int) (obj : Rec) (infos : List NotifyInfo)
    (x : String) : ∀ kv, kvLookup kv x = some (toString now) →
      kvLookup (notifyFold d now obj infos kv) x = some (toString now) := by
  induction infos with
  | nil => intro kv h; exact h
  | cons a rest ih =>
    intro kv h
    show kvLookup (notifyFold d now obj rest _) x = _
    apply ih
    rw [updateVersion_lookup]
    by_cases hcond : kvFails kv (notifyVersionKey a obj) = false ∧ x = notifyVersionKey a obj <;>
      simp [hcond, h]

theorem notifyFold_sets (d : Dao) (now : Int) (obj : Rec) (infos : List NotifyInfo)
    (info : NotifyInfo) (hmem : info ∈ infos) :
    ∀ kv, kvFails kv (notifyVersionKey info obj) = false →
      kvLookup (notifyFold d now obj infos kv) (notifyVersionKey info obj) =
        some (toString now) := by
  induction infos with
  | nil => cases hmem
  | cons a rest ih =>
    intro kv hf
    rcases List.mem_cons.1 hmem with rfl | hmem'
    · show kvLookup (notifyFold d now obj rest _) _ = _
      apply notifyFold_preserve
      rw [updateVersion_lookup]
      simp [hf]
    · show kvLookup (notifyFold d now obj rest _) _ = _
      apply ih hmem'
      rw [show kvFails ((UpdateVersion d kv now (notifyVersionKey a obj)).2)
            (notifyVersionKey info obj) = kvFails kv (notifyVersionKey info obj) from by
        rw [kvFails_congr (updateVersion_failing d kv now (notifyVersionKey a obj))]]
      exact hf

theorem notifyFold_other (d : Dao) (now : Int) (obj : Rec) (infos : List NotifyInfo)
    (x : String) (hne : ∀ info ∈ infos, notifyVersionKey info obj ≠ x) :
    ∀ kv, kvLookup (notifyFold d now obj infos kv) x = kvLookup kv x := by
  induction infos with
  | nil => intro kv; rfl
  | cons a rest ih =>
    intro kv
    show kvLookup (notifyFold d now obj rest _) x = _
    rw [ih (fun info hm => hne info (List.mem_cons_of_mem a hm)), updateVersion_lookup]
    have : ¬ x = notifyVersionKey a obj :=
      fun hx => hne a (List.mem_cons_self a rest) hx.symm
    simp [this]

/-! ### C4 -/

/-- C4: for a non-nil record `NotifyModified` deletes the current object cache
key on a best-effort basis (no failure of the delete or of a version write
makes it fail - it always returns nil), and overwrites the version key of
every `NotifyInfo` in the schema with the current timestamp. -/
theorem notifyModified_contract (d : Dao) (kv : KV) (now : Int) (curDo : Option Rec)
    (obj : Rec) :
    ((NotifyModified d kv now curDo).1 = .ok ()) ∧
    (∀ info ∈ d.notifyInfos, kvFails kv (notifyVersionKey info obj) = false →
      kvLookup (NotifyModified d kv now (some obj)).2 (notifyVersionKey info obj) =
        some (toString now)) ∧
    (kvFails kv (notifyObjectKey d kv obj.id) = false →
      (∀ info ∈ d.notifyInfos, notifyVersionKey info obj ≠ notifyObjectKey d kv obj.id) →
      kvLookup (NotifyModified d kv now (some obj)).2 (notifyObjectKey d kv obj.id) = none) := by
  refine ⟨?_, ?_, ?_⟩
  · cases curDo <;> rfl
  · intro info hmem hf
    unfold NotifyModified
    dsimp only
    apply notifyFold_sets d now obj d.notifyInfos info hmem
    by_cases hdel : kvFails kv (notifyObjectKey d kv obj.id)
    · rw [show (match kvDelete kv (notifyObjectKey d kv obj.id) with
          | .ok kv2 => kv2
          | .error _ => kv) = kv from by
        unfold kvDelete
        rw [hdel]
        rfl]
      exact hf
    · rw [show (match kvDelete kv (notifyObjectKey d kv obj.id) with
          | .ok kv2 => kv2
          | .error _ => kv) = kvEraseState kv (notifyObjectKey d kv obj.id) from by
        rw [kvDelete_ok (by simpa using hdel)]]
      rw [kvFails_kvEraseState]
      exact hf
  · intro hdel hne
    unfold NotifyModified
    dsimp only
    rw [notifyFold_other d now obj d.notifyInfos _ hne]
    rw [show (match kvDelete kv (notifyObjectKey d kv obj.id) with
        | .ok kv2 => kv2
        | .error _ => kv) = kvEraseState kv (notifyObjectKey d kv obj.id) from by
      rw [kvDelete_ok hdel]]
    rw [kvLookup_kvEraseState, if_pos rfl]

def wkvObj : KV :=
  { store := [(MakeObjectVersionKey wDao 7, toString (100 : Int)),
      (MakeObjectKey wDao 7 (toString (100 : Int)), toString (7 : Nat))], failing := [] }

theorem notifyModified_contract_witness :
    ((NotifyModified wDao wkvObj 200 (some wRec)).1 = .ok ()) ∧
    kvLookup (NotifyModified wDao wkvObj 200 (some wRec)).2 (notifyVersionKey wInfo wRec) =
      some (toString (200 : Int)) ∧
    kvLookup (NotifyModified wDao wkvObj 200 (some wRec)).2
      (notifyObjectKey wDao wkvObj 7) = none := by
  have h := notifyModified_contract wDao wkvObj 200 (some wRec) wRec
  exact ⟨h.1, h.2.1 wInfo (by decide) (by decide), h.2.2 (by decide) (by decide)⟩

/-! ### Query cache writes (`AddVersion`, `SetCache`) -/

/-- `AddVersion`: `Add` the method version; `ErrNotStored` is a success. -/
def AddVersion (d : Dao) (kv : KV) (m : String) (ts : Int) (args : List GoValue) :
    Except CErr Unit × KV :=
  match MakeMethodVersionKey d m args with
  | .error e => (.error e, kv)
  | .ok vk =>
      match kvAdd kv vk (toString ts) with
      | .stored kv1 => (.ok (), kv1)
      | .notStored => (.ok (), kv)
      | .fail => (.error .transport, kv)

/-- `SetCache`: warm the object cache (its error is dropped by the Go code),
reuse an existing method version token for the cache key when one exists (else
use `now`), `Set` the entry, then `Add` the version. -/
def SetCache (d : Dao) (kv : KV) (now : Int) (obj : Rec) (m : String) (args : List GoValue) :
    Except CErr Unit × KV :=
  let kv1 := (SetObjectCache d kv now obj).2
  match GetVersion d kv1 m args with
  | .error e => (.error e, kv1)
  | .ok oldVersion =>
      let ts : Int := if oldVersion ≠ emptyStr then toNum oldVersion else now
      let cacheKey := MakeKey (MakeKeyPrefix d m args) (toString ts)
      match kvSet kv1 cacheKey (toString obj.id) with
      | .error _ => (.error .transport, kv1)
      | .ok kv2 => AddVersion d kv2 m ts args

/-! ### C3 -/

/-- C3: `SetCache` stores the method cache entry under the already-existing
method version token when one exists, and under the current timestamp
otherwise; it then writes the version key with `Add` (set-if-absent, where
already-stored is a success), so an existing version value survives
unchanged. -/
theorem setCache_version_semantics (d : Dao) (kv : KV) (now : Int) (obj : Rec) (m : String)
    (args : List GoValue) (vk : String)
    (hm : MakeMethodVersionKey d m args = .ok vk)
    (hvkf : kvFails kv vk = false)
    (hvkb : vk ≠ MakeObjectKey d obj.id (toString now))
    (hvko : vk ≠ MakeObjectVersionKey d obj.id) :
    (∀ v, kvLookup kv vk = some v → toString (toNum v) = v →
      kvFails kv (MakeKey (MakeKeyPrefix d m args) v) = false →
      MakeKey (MakeKeyPrefix d m args) v ≠ vk →
      (SetCache d kv now obj m args).1 = .ok () ∧
      kvLookup (SetCache d kv now obj m args).2 (MakeKey (MakeKeyPrefix d m args) v) =
        some (toString obj.id) ∧
      kvLookup (SetCache d kv now obj m args).2 vk = some v) ∧
    (kvLookup kv vk = none →
      kvFails kv (MakeKey (MakeKeyPrefix d m args) (toString now)) = false →
      MakeKey (MakeKeyPrefix d m args) (toString now) ≠ vk →
      (SetCache d kv now obj m args).1 = .ok () ∧
      kvLookup (SetCache d kv now obj m args).2
        (MakeKey (MakeKeyPrefix d m args) (toString now)) = some (toString obj.id) ∧
      kvLookup (SetCache d kv now obj m args).2 vk = some (toString now)) := by
  have hfail1 : kvFails (SetObjectCache d kv now obj).2 = kvFails kv :=
    kvFails_congr (setObjectCache_failing d kv now obj)
  have hlook1 : kvLookup (SetObjectCache d kv now obj).2 vk = kvLookup kv vk :=
    setObjectCache_lookup_other d kv now obj vk hvkb hvko
  constructor
  · intro v hv hcanon hckf hckne
    have hvne : v ≠ emptyStr := by
      intro hveq
      rw [hveq] at hcanon
      exact absurd hcanon (by decide)
    have hgv : GetVersion d (SetObjectCache d kv now obj).2 m args = .ok v := by
      simp [GetVersion, kvGet, hm, hfail1, hvkf, hlook1, hv]
    unfold SetCache
    dsimp only
    rw [hgv]
    dsimp only
    rw [if_pos hvne, hcanon]
    rw [kvSet_ok (show kvFails (SetObjectCache d kv now obj).2
      (MakeKey (MakeKeyPrefix d m args) v) = false from by rw [hfail1]; exact hckf)]
    dsimp only
    unfold AddVersion
    rw [hm]
    dsimp only
    rw [show kvAdd (kvSetState (SetObjectCache d kv now obj).2
        (MakeKey (MakeKeyPrefix d m args) v) (toString obj.id)) vk (toString (toNum v)) =
        .notStored from by
      apply kvAdd_notStored
      · rw [kvFails_kvSetState, hfail1]
        exact hvkf
      · rw [kvLookup_kvSetState, if_neg (fun hh => hckne hh.symm), hlook1]
        exact hv]
    dsimp only
    refine ⟨rfl, ?_, ?_⟩
    · rw [kvLookup_kvSetState, if_pos rfl]
    · rw [kvLookup_kvSetState, if_neg (fun hh => hckne hh.symm), hlook1]
      exact hv
  · intro hv hckf hckne
    have hgv : GetVersion d (SetObjectCache d kv now obj).2 m args = .ok emptyStr := by
      simp [GetVersion, kvGet, hm, hfail1, hvkf, hlook1, hv]
    unfold SetCache
    dsimp only
    rw [hgv]
    dsimp only
    rw [if_neg (show ¬ emptyStr ≠ emptyStr from by simp)]
    rw [kvSet_ok (show kvFails (SetObjectCache d kv now obj).2
      (MakeKey (MakeKeyPrefix d m args) (toString now)) = false from by
        rw [hfail1]; exact hckf)]
    dsimp only
    unfold AddVersion
    rw [hm]
    dsimp only
    rw [show kvAdd (kvSetState (SetObjectCache d kv now obj).2
        (MakeKey (MakeKeyPrefix d m args) (toString now)) (toString obj.id)) vk
        (toString now) =
        .stored (kvSetState (kvSetState (SetObjectCache d kv now obj).2
          (MakeKey (MakeKeyPrefix d m args) (toString now)) (toString obj.id)) vk
          (toString now)) from by
      apply kvAdd_stored
      · rw [kvFails_kvSetState, hfail1]
        exact hvkf
      · rw [kvLookup_kvSetState, if_neg (fun hh => hckne hh.symm), hlook1]
        exact hv]
    dsimp only
    refine ⟨rfl, ?_, ?_⟩
    · rw [kvLookup_kvSetState, if_neg (fun hh => hckne hh), kvLookup_kvSetState, if_pos rfl]
    · rw [kvLookup_kvSetState, if_pos rfl]

def wkvV : KV := { store := [(wVKey, toString (50 : Int))], failing := [] }

theorem setCache_version_semantics_witness :
    ((SetCache wDao wkvV 100 wRec wMethod wArgs).1 = .ok () ∧
      kvLookup (SetCache wDao wkvV 100 wRec wMethod wArgs).2
        (MakeKey (MakeKeyPrefix wDao wMethod wArgs) (toString (50 : Int))) =
          some (toString (7 : Nat)) ∧
      kvLookup (SetCache wDao wkvV 100 wRec wMethod wArgs).2 wVKey =
        some (toString (50 : Int))) ∧
    ((SetCache wDao wkv0 100 wRec wMethod wArgs).1 = .ok () ∧
      kvLookup (SetCache wDao wkv0 100 wRec wMethod wArgs).2
        (MakeKey (MakeKeyPrefix wDao wMethod wArgs) (toString (100 : Int))) =
          some (toString (7 : Nat)) ∧
      kvLookup (SetCache wDao wkv0 100 wRec wMethod wArgs).2 wVKey =
        some (toString (100 : Int))) := by
  constructor
  · exact (setCache_version_semantics wDao wkvV 100 wRec wMethod wArgs wVKey (by decide)
      (by decide) (by decide) (by decide)).1 (toString (50 : Int)) (by decide) (by decide)
      (by decide) (by decide)
  · exact (setCache_version_semantics wDao wkv0 100 wRec wMethod wArgs wVKey (by decide)
      (by decide) (by decide) (by decide)).2 (by decide) (by decide) (by decide)

/-! ### Batch object reads (`GetByIds`) -/

/-- One step of the `objMap` construction in `reorderByIds`: a later record
with the same id overwrites an earlier one, like the Go map assignment. -/
def recMapInsert (mfun : Nat → Option Rec) (r : Rec) : Nat → Option Rec :=
  fun i => if i = r.id then some r else mfun i

/-- `reorderByIds`: index the collected records by id, then emit, for every
input position in order, the record registered for that id, dropping input ids
without a record (and records without a matching input id). -/
def reorderByIds (ids : List Nat) (objList : List Rec) : List Rec :=
  ids.filterMap (objList.foldl recMapInsert (fun _ => none))

/-- The per-id lookup into the map returned by `GetObjectKeys`. -/
def keyOfList (okeys : List (Nat × String)) (i : Nat) : Option String :=
  ((okeys.find? (fun p => p.1 == i))).map (fun p => p.2)

/-- The body of `GetByIds` once the object keys are known: batch body fetch,
per-item deserialization (failures skipped), SQL refill of the absent ids,
reorder to the input order. -/
def getByIdsCore (d : Dao) (kv : KV) (now : Int) (ids : List Nat)
    (okeys : List (Nat × String)) : Except CErr (List Rec) × KV :=
  let keyOf := keyOfList okeys
  let absent0 := ids.filter (fun i => (keyOf i).isNone)
  let retIds := ids.filter (fun i => (keyOf i).isSome)
  match kvGetMulti kv (retIds.filterMap keyOf) with
  | .error _ => SetObjectCachesForGetByIds d kv now ids
  | .ok items =>
      let cacheIds := items.map (fun p => ResolveIdFromObjectCacheKey p.1)
      let recs := items.filterMap (fun p => ((d.deser p.2)).toOption)
      let absentIds := absent0 ++ retIds.filter (fun i => ! cacheIds.contains i)
      if absentIds.length > 0 then
        match SetObjectCachesForGetByIds d kv now absentIds with
        | (.ok absentList, kv1) => (.ok (reorderByIds ids (recs ++ absentList)), kv1)
        | (.error _, _) => SetObjectCachesForGetByIds d kv now ids
      else (.ok (reorderByIds ids recs), kv)

/-- `GetByIds`: batch version fetch, then `getByIdsCore`; a transport error on
the version fetch falls back to a full SQL load (returned in table order). -/
def GetByIds (d : Dao) (kv : KV) (now : Int) (ids : List Nat) :
    Except CErr (List Rec) × KV :=
  if ids.length = 0 then (.ok [], kv)
  else
    match GetObjectKeys d kv ids with
    | .error _ => SetObjectCachesForGetByIds d kv now ids
    | .ok objCacheKeys => getByIdsCore d kv now ids objCacheKeys

/-! ### Batch query cache (`GetByConcreteKeys`) -/

def isListArg : GoValue → Bool
  | .seq _ => true
  | _ => false

/-- `util.GetListLength` on a slice argument. -/
def seqLen : GoValue → Nat
  | .seq es => es.length
  | _ => 0

/-- `util.GetListElement`. -/
def seqAt (v : GoValue) (i : Nat) : GoValue :=
  match v with
  | .seq es => .atom (es.getD i (GoAtom.strA emptyStr))
  | _ => v

def atomOf : GoValue → GoAtom
  | .atom a => a
  | _ => GoAtom.strA emptyStr

/-- The list-valued argument positions. -/
def listArgIdx (args : List GoValue) : List Nat :=
  (List.range args.length).filter (fun i => isListArg (args.getD i defaultArg))

/-- The chained equal-length check of the Go loop (the call errors exactly
when some length differs from the previous one, i.e. unless all agree). -/
def lensAllEq : List Nat → Bool
  | [] => true
  | l :: rest => rest.all (fun x => x == l)

/-- Row `i` of the exploded call: list positions are replaced by their `i`-th
element. -/
def explodeRow (args : List GoValue) (lset : List Nat) (i : Nat) : List GoValue :=
  (List.range args.length).map (fun j =>
    if lset.contains j then seqAt (args.getD j defaultArg) i else args.getD j defaultArg)

/-- `getObjMapKey`: the record's governing field values joined by `_` (field
values are scalars, whose `GeneralToString` is their rendering). -/
def getObjMapKey (obj : Rec) (info : NotifyInfo) : String :=
  ujoin (info.fields.map (recField obj))

/-- The `arrMap` key of one exploded tuple. -/
def getParamKey (info : NotifyInfo) (tup : List GoValue) : String :=
  ujoin (info.argIdx.map (fun j => GeneralToString (tup.getD j defaultArg)))

/-- `getParamMap`: a Go map from tuple key to tuple; a later tuple with the
same key overwrites an earlier one (iteration order modelled as insertion
order). -/
def getParamMap (paramArrays : List (List GoValue)) (info : NotifyInfo) :
    List (String × List GoValue) :=
  paramArrays.foldl (fun m tup =>
    (m.filter (fun p => p.1 != getParamKey info tup)) ++ [(getParamKey info tup, tup)]) []

/-- `SetCaches`: warm the per-tuple query caches for the records that match a
tuple of the explosion set. -/
def SetCaches (d : Dao) (kv : KV) (now : Int) (objs : List Rec) (m : String)
    (paramArrays : List (List GoValue)) : KV :=
  match methodInfo d m with
  | none => kv
  | some info =>
      let arrMap := getParamMap paramArrays info
      objs.foldl (fun acc obj =>
        match arrMap.find? (fun p => p.1 == getObjMapKey obj info) with
        | some pr => (SetCache d acc now obj m pr.2).2
        | none => acc) kv

/-- The shared SQL fallback of `GetByConcreteKeys`: query with the original
args, spawn the cache warm, return the rows. -/
def concreteFallback (d : Dao) (kv : KV) (now : Int) (m : String) (args : List GoValue)
    (paramArrays : List (List GoValue)) : Except CErr (List Rec) × KV :=
  let objs := d.sqlQuery m args
  (.ok objs, SetCaches d kv now objs m paramArrays)

/-- `GetByConcreteKeys`: identify the list-valued argument positions (none is
an error, unequal lengths are an error, both before any cache access), explode
the call, batch-read versions and cache entries, materialize hits through
`GetByIds`, then refill the absent tuples from SQL in one call. -/
def GetByConcreteKeys (d : Dao) (kv : KV) (now : Int) (m : String) (args : List GoValue) :
    Except CErr (List Rec) × KV :=
  let lset := listArgIdx args
  if lset = [] then (.error .noListArg, kv)
  else
    let lens := lset.map (fun i => seqLen (args.getD i defaultArg))
    if lensAllEq lens = false then (.error .lenMismatch, kv)
    else
      let lastLength := ((lens.getLast?)).getD 0
      let paramArrays := (List.range lastLength).map (explodeRow args lset)
      match GetVersions d kv m paramArrays with
      | .error _ => concreteFallback d kv now m args paramArrays
      | .ok versionsMap =>
          let cacheKeys := paramArrays.filterMap (fun tup =>
            ((versionsMap.find? (fun p => p.1 == JoinArgs d m tup))).map
              (fun p => MakeKey (MakeKeyPrefix d m tup) p.2))
          match kvGetMulti kv cacheKeys with
          | .error _ => concreteFallback d kv now m args paramArrays
          | .ok cacheItems =>
              match GetByIds d kv now (cacheItems.map (fun p => toUNum p.2)) with
              | (.error _, _) => concreteFallback d kv now m args paramArrays
              | (.ok objs, kv1) =>
                  if objs.length ≥ lastLength then (.ok objs, kv1)
                  else
                    match methodInfo d m with
                    | none => (.ok objs, kv1)
                    | some info =>
                        let arrMap := getParamMap paramArrays info
                        let objKeys := objs.map (fun o => getObjMapKey o info)
                        let absentTups := arrMap.filter (fun p => ! objKeys.contains p.1)
                        if absentTups.length = 0 then (.ok objs, kv1)
                        else
                          let absentParams := (List.range args.length).map (fun j =>
                            if lset.contains j then
                              GoValue.seq (absentTups.map (fun p =>
                                atomOf (p.2.getD j defaultArg)))
                            else args.getD j defaultArg)
                          let absentObjs := d.sqlQuery m absentParams
                          (.ok (objs ++ absentObjs),
                            SetCaches d kv1 now absentObjs m paramArrays)

/-! ### C2 -/

/-- C2: `GetByConcreteKeys` fails with the no-list-arg error when no argument
is list-valued, and with the length-mismatch error when the list-valued
arguments disagree in length; both failures return before any cache access,
leaving the client state untouched. -/
theorem getByConcreteKeys_arg_errors (d : Dao) (kv : KV) (now : Int) (m : String)
    (args : List GoValue) :
    (listArgIdx args = [] →
      GetByConcreteKeys d kv now m args = (.error .noListArg, kv)) ∧
    (listArgIdx args ≠ [] →
      lensAllEq ((listArgIdx args).map (fun i => seqLen (args.getD i defaultArg))) = false →
      GetByConcreteKeys d kv now m args = (.error .lenMismatch, kv)) := by
  constructor
  · intro h
    unfold GetByConcreteKeys
    rw [if_pos h]
  · intro h1 h2
    unfold GetByConcreteKeys
    rw [if_neg h1]
    dsimp only
    rw [h2]
    rfl

def wArgsNoList : List GoValue := [GoValue.atom (GoAtom.intA 1)]

def wArgsMismatch : List GoValue :=
  [GoValue.seq [GoAtom.intA 1, GoAtom.intA 2], GoValue.seq [GoAtom.intA 10]]

theorem getByConcreteKeys_arg_errors_witness :
    GetByConcreteKeys wDao wkv0 100 wMethod wArgsNoList = (.error .noListArg, wkv0) ∧
    GetByConcreteKeys wDao wkv0 100 wMethod wArgsMismatch = (.error .lenMismatch, wkv0) :=
  ⟨(getByConcreteKeys_arg_errors wDao wkv0 100 wMethod wArgsNoList).1 (by decide),
   (getByConcreteKeys_arg_errors wDao wkv0 100 wMethod wArgsMismatch).2 (by decide) (by decide)⟩

/-! ### List query cache (`GetByList`) -/

/-- `dbArgCheck`: the first argument must exist and be a `gorm.DB` by type
identity. -/
def dbArgCheck (args : List GoValue) : Except CErr Unit :=
  match args with
  | [] => .error .noArgs
  | a :: _ => if a = GoValue.db then .ok () else .error .wrongHandle

/-- `json.Marshal` of a `[]uint64`. -/
def encodeIds (ids : List Nat) : String :=
  lbrk ++ String.intercalate commaSep (ids.map toString) ++ rbrk

/-- `json.Unmarshal` into a `[]uint64` (shape produced by `encodeIds`). -/
def decodeIds (s : String) : Except CErr (List Nat) :=
  if s = lbrk ++ rbrk then .ok []
  else
    match s.toList with
    | '[' :: rest =>
        if rest.getLast? = some ']' then
          match (splitCharsAux ',' [] rest.dropLast).mapM parseNatCore with
          | some ns => .ok ns
          | none => .error .badJson
        else .error .badJson
    | _ => .error .badJson

/-- `SetListCache`: check the handle, query SQL through an id-projecting
handle, materialize through `GetByIds`, persist the JSON id list under the
(version-reusing) method cache key, `AddVersion`.  Returns the Go
`(value, error)` pair plus the client state. -/
def SetListCache (d : Dao) (kv : KV) (now : Int) (m : String) (args : List GoValue) :
    Option (List Rec) × Option CErr × KV :=
  match dbArgCheck args with
  | .error e => (none, some e, kv)
  | .ok _ =>
      let objs := d.sqlQuery m (args.set 0 GoValue.db)
      let ids := objs.map (fun r => r.id)
      match GetByIds d kv now ids with
      | (.error e, kv1) => (none, some e, kv1)
      | (.ok retList, kv1) =>
          match GetVersion d kv1 m args with
          | .error e => (none, some e, kv1)
          | .ok oldVersion =>
              let ts : Int := if oldVersion ≠ emptyStr then toNum oldVersion else now
              match kvSet kv1 (MakeKey (MakeKeyPrefix d m args) (toString ts))
                  (encodeIds ids) with
              | .error _ => (some retList, some .transport, kv1)
              | .ok kv2 =>
                  match AddVersion d kv2 m ts args with
                  | (.error e, kv3) => (some retList, some e, kv3)
                  | (.ok _, kv3) => (some retList, none, kv3)

/-- `GetByList`: on version or cache miss (or any cache error) call
`SetListCache`, log its error and return its value with a nil error; on a hit
decode the id list and materialize through `GetByIds`. -/
def GetByList (d : Dao) (kv : KV) (now : Int) (m : String) (args : List GoValue) :
    Except CErr (Option (List Rec)) × KV :=
  match GetKey d kv m args with
  | .error _ =>
      let r := SetListCache d kv now m args
      (.ok r.1, r.2.2)
  | .ok cacheKey =>
      if cacheKey = emptyStr then
        let r := SetListCache d kv now m args
        (.ok r.1, r.2.2)
      else
        match kvGet kv cacheKey with
        | .hit v =>
            match decodeIds v with
            | .error e => (.error e, kv)
            | .ok ids =>
                match GetByIds d kv now ids with
                | (.ok l, kv1) => (.ok (some l), kv1)
                | (.error e, kv1) => (.error e, kv1)
        | _ =>
            let r := SetListCache d kv now m args
            (.ok r.1, r.2.2)

/-! ### C8 -/

def wArgsBad : List GoValue := [GoValue.atom (GoAtom.intA 5), GoValue.atom (GoAtom.strA wName)]

/-- C8 counterexample: with the method version missing and a non-handle first
argument, `SetListCache` raises the wrong-handle-type error, yet `GetByList`
returns a nil value with a nil error - the argument error does not reach
`GetByList`'s caller. -/
theorem getByList_handle_error_counterexample :
    SetListCache wDao wkv0 100 wMethod wArgsBad = (none, some CErr.wrongHandle, wkv0) ∧
    GetByList wDao wkv0 100 wMethod wArgsBad = (.ok none, wkv0) := by
  constructor
  · decide
  · decide

/-- C8 amended: when the first argument is not the data-access handle,
`SetListCache` returns the wrong-handle-type error; `GetByList`, invoking it
on the version/cache-miss path, logs and swallows that error and returns a nil
list with no error to its caller. -/
theorem getByList_swallows_handle_error (d : Dao) (kv : KV) (now : Int) (m : String)
    (a0 : GoValue) (rest : List GoValue) (hnd : a0 ≠ GoValue.db)
    (hmiss : GetKey d kv m (a0 :: rest) = .ok emptyStr ∨
      ∃ e, GetKey d kv m (a0 :: rest) = .error e) :
    SetListCache d kv now m (a0 :: rest) = (none, some .wrongHandle, kv) ∧
    GetByList d kv now m (a0 :: rest) = (.ok none, kv) := by
  have h1 : SetListCache d kv now m (a0 :: rest) = (none, some .wrongHandle, kv) := by
    unfold SetListCache dbArgCheck
    simp [hnd]
  refine ⟨h1, ?_⟩
  unfold GetByList
  rcases hmiss with hk | ⟨e, hk⟩ <;> rw [hk] <;> simp [h1]

theorem getByList_swallows_handle_error_witness :
    SetListCache wDao wkv0 100 wMethod wArgsBad = (none, some .wrongHandle, wkv0) ∧
    GetByList wDao wkv0 100 wMethod wArgsBad = (.ok none, wkv0) :=
  getByList_swallows_handle_error wDao wkv0 100 wMethod (GoValue.atom (GoAtom.intA 5))
    [GoValue.atom (GoAtom.strA wName)] (by decide) (Or.inl (by decide))

/-! ### C7 -/

/-- C7: `MakePenetrateKey` produces the same fingerprint for argument tuples
that differ only in the iteration order of slice-valued or map-valued
arguments (equal as multisets; map keys render distinctly, as Go map keys
do). -/
theorem makePenetrateKey_order_insensitive (f : GoFunc) (in1 in2 : List GoValue)
    (hrel : List.Forall₂ argReorder in1 in2) :
    MakePenetrateKey f in1 = MakePenetrateKey f in2 := by
  have hmap : in1.map penetrateArgStr = in2.map penetrateArgStr := by
    induction hrel with
    | nil => rfl
    | cons h _ ih => simp [List.map_cons, penetrateArgStr_eq_of_reorder h, ih]
  have hlen : in1.length = in2.length := hrel.length_eq
  unfold MakePenetrateKey
  rw [hlen, hmap]

def wKeyB : String := "b"

def wFun : GoFunc := { name := wMethod, numIn := 2 }

def wPenIn1 : List GoValue :=
  [GoValue.seq [GoAtom.intA 1, GoAtom.intA 2],
   GoValue.mp [(GoAtom.strA wName, GoAtom.intA 1), (GoAtom.strA wKeyB, GoAtom.intA 2)]]

def wPenIn2 : List GoValue :=
  [GoValue.seq [GoAtom.intA 2, GoAtom.intA 1],
   GoValue.mp [(GoAtom.strA wKeyB, GoAtom.intA 2), (GoAtom.strA wName, GoAtom.intA 1)]]

theorem makePenetrateKey_order_insensitive_witness :
    MakePenetrateKey wFun wPenIn1 = MakePenetrateKey wFun wPenIn2 :=
  makePenetrateKey_order_insensitive wFun wPenIn1 wPenIn2
    (List.Forall₂.cons (Or.inr (Or.inl ⟨_, _, rfl, rfl, by decide⟩))
      (List.Forall₂.cons (Or.inr (Or.inr ⟨_, _, rfl, rfl, by decide, by decide⟩))
        List.Forall₂.nil))

/-! ### C6 -/

/-- C6 counterexample: the cache-key stringification (`GeneralToString`, used
by `MakeKeyPrefix` and the version keys) does not sort sequence elements
before digesting: the multiset-equal slices `[1, 2]` and `[2, 1]` produce
different digests and different cache-key prefixes. -/
theorem generalToString_seq_not_sorted :
    [GoAtom.intA 1, GoAtom.intA 2].Perm [GoAtom.intA 2, GoAtom.intA 1] ∧
    GeneralToString (GoValue.seq [GoAtom.intA 1, GoAtom.intA 2]) ≠
      GeneralToString (GoValue.seq [GoAtom.intA 2, GoAtom.intA 1]) ∧
    MakeKeyPrefix wDao wMethod [GoValue.db, GoValue.seq [GoAtom.intA 1, GoAtom.intA 2]] ≠
      MakeKeyPrefix wDao wMethod [GoValue.db, GoValue.seq [GoAtom.intA 2, GoAtom.intA 1]] := by
  refine ⟨by decide, by decide, by decide⟩

/-- C6 amended: the cache-key stringification digests map-valued arguments
from a rendering whose entries are sorted by key, so multiset-equal maps
(with distinct keys, as Go map keys are) stringify to the same digest; a
sequence-valued argument is digested from its elements in their given order,
so sequences agree exactly when their in-order element renderings agree. -/
theorem generalToString_canonicalization (es fs : List (GoAtom × GoAtom))
    (xs ys : List GoAtom) (hperm : es.Perm fs)
    (hnd : (es.map (fun p => atomRender p.1)).Nodup)
    (hseq : xs.map atomRender = ys.map atomRender) :
    GeneralToString (GoValue.mp es) = GeneralToString (GoValue.mp fs) ∧
    GeneralToString (GoValue.seq xs) = GeneralToString (GoValue.seq ys) := by
  constructor
  · have hnd' : ((es.map (fun p => (atomRender p.1, atomRender p.2))).map Prod.fst).Nodup := by
      rw [List.map_map]
      exact hnd
    have hsort : sortByKey Prod.fst (es.map (fun p => (atomRender p.1, atomRender p.2))) =
        sortByKey Prod.fst (fs.map (fun p => (atomRender p.1, atomRender p.2))) :=
      sortByKey_eq_of_perm (hperm.map _) hnd'
    simp only [GeneralToString, goRender, hsort]
  · simp only [GeneralToString, goRender, hseq]

theorem generalToString_canonicalization_witness :
    GeneralToString (GoValue.mp [(GoAtom.strA wName, GoAtom.intA 1),
        (GoAtom.strA wKeyB, GoAtom.intA 2)]) =
      GeneralToString (GoValue.mp [(GoAtom.strA wKeyB, GoAtom.intA 2),
        (GoAtom.strA wName, GoAtom.intA 1)]) ∧
    GeneralToString (GoValue.seq [GoAtom.intA 1]) =
      GeneralToString (GoValue.seq [GoAtom.intA 1]) :=
  generalToString_canonicalization _ _ _ _ (by decide) (by decide) rfl

/-! ### C1: helper lemmas for the reorder proof -/

theorem mem_dedupKeys (x : String) : ∀ (seen l : List String),
    x ∈ dedupKeys seen l ↔ x ∈ l ∧ x ∉ seen := by
  intro seen l
  induction l generalizing seen with
  | nil => simp [dedupKeys]
  | cons k ks ih =>
    unfold dedupKeys
    by_cases hk : k ∈ seen
    · rw [if_pos hk, ih]
      constructor
      · exact fun ⟨h1, h2⟩ => ⟨List.mem_cons_of_mem k h1, h2⟩
      · rintro ⟨h1, h2⟩
        rcases List.mem_cons.1 h1 with rfl | h1'
        · exact absurd hk h2
        · exact ⟨h1', h2⟩
    · rw [if_neg hk]
      constructor
      · intro hmem
        rcases List.mem_cons.1 hmem with rfl | h1
        · exact ⟨List.mem_cons_self x ks, hk⟩
        · have := (ih (k :: seen)).1 h1
          refine ⟨List.mem_cons_of_mem k this.1, fun hs => this.2 (List.mem_cons_of_mem k hs)⟩
      · rintro ⟨h1, h2⟩
        rcases List.mem_cons.1 h1 with rfl | h1'
        · exact List.mem_cons_self x _
        · by_cases hxk : x = k
          · subst hxk
            exact List.mem_cons_self x _
          · exact List.mem_cons_of_mem k ((ih (k :: seen)).2
              ⟨h1', fun hs => (List.mem_cons.1 hs).elim hxk h2⟩)

theorem nodup_dedupKeys : ∀ (seen l : List String), (dedupKeys seen l).Nodup := by
  intro seen l
  induction l generalizing seen with
  | nil => exact List.nodup_nil
  | cons k ks ih =>
    unfold dedupKeys
    by_cases hk : k ∈ seen
    · rw [if_pos hk]
      exact ih seen
    · rw [if_neg hk]
      refine List.nodup_cons.2 ⟨?_, ih (k :: seen)⟩
      intro hmem
      exact ((mem_dedupKeys k (k :: seen) ks).1 hmem).2 (List.mem_cons_self k seen)

theorem find?_eq_of_unique {α : Type u} (l : List α) (p : α → Bool) (q : α)
    (hq : q ∈ l) (hpq : p q = true) (huniq : ∀ x ∈ l, p x = true → x = q) :
    l.find? p = some q := by
  induction l with
  | nil => cases hq
  | cons a l ih =>
    by_cases hpa : p a = true
    · have : a = q := huniq a (List.mem_cons_self a l) hpa
      subst this
      simp [List.find?_cons, hpa]
    · have haq : a ≠ q := fun h => hpa (h ▸ hpq)
      rw [List.find?_cons]
      rw [show p a = false from by simpa using hpa]
      exact ih ((List.mem_cons.1 hq).resolve_left (fun h => haq h.symm))
        (fun x hx hpx => huniq x (List.mem_cons_of_mem a hx) hpx)

theorem foldl_recMapInsert_skip (l : List Rec) (i : Nat) (hno : ∀ r ∈ l, r.id ≠ i) :
    ∀ m : Nat → Option Rec, (l.foldl recMapInsert m) i = m i := by
  induction l with
  | nil => intro m; rfl
  | cons a l ih =>
    intro m
    show (l.foldl recMapInsert (recMapInsert m a)) i = m i
    rw [ih (fun r hr => hno r (List.mem_cons_of_mem a hr)) (recMapInsert m a)]
    unfold recMapInsert
    rw [if_neg (fun h => hno a (List.mem_cons_self a l) h.symm)]

theorem foldl_recMapInsert_eq (l : List Rec) (hnd : (l.map Rec.id).Nodup) (i : Nat) :
    ∀ m : Nat → Option Rec,
      (l.foldl recMapInsert m) i = ((l.find? (fun r => r.id == i)).elim (m i) some) := by
  induction l with
  | nil => intro m; rfl
  | cons a l ih =>
    intro m
    have hnd' : (l.map Rec.id).Nodup := (List.nodup_cons.1 (by simpa using hnd)).2
    have hana : a.id ∉ l.map Rec.id := (List.nodup_cons.1 (by simpa using hnd)).1
    show (l.foldl recMapInsert (recMapInsert m a)) i = _
    by_cases hai : a.id = i
    · subst hai
      have hskip : ∀ r ∈ l, r.id ≠ a.id := by
        intro r hr h
        exact hana (h ▸ List.mem_map_of_mem Rec.id hr)
      rw [foldl_recMapInsert_skip l a.id hskip]
      unfold recMapInsert
      simp [List.find?_cons]
    · rw [ih hnd']
      rw [List.find?_cons]
      rw [show (a.id == i) = false from by simpa using fun h => hai h]
      unfold recMapInsert
      rw [if_neg (fun h => hai h.symm)]

/-- With distinct record ids, `reorderByIds` fills every input position with
the first (the unique) collected record whose id matches, in input order. -/
theorem reorderByIds_eq_find? (ids : List Nat) (l : List Rec)
    (hnd : (l.map Rec.id).Nodup) :
    reorderByIds ids l = ids.filterMap (fun i => l.find? (fun r => r.id == i)) := by
  unfold reorderByIds
  apply List.filterMap_congr
  intro i _
  rw [foldl_recMapInsert_eq l hnd i]
  cases l.find? (fun r => r.id == i) <;> rfl

/-- Per-id well-formedness: the object version key parses back to the id. -/
def vkeysOkB (d : Dao) (i : Nat) : Bool :=
  ResolveIdFromObjectVersionKey (MakeObjectVersionKey d i) == i

/-- Per-id coherence of the client state: if a version token is stored for the
id, the object key it induces parses back to the id, and a stored body at that
key deserializes (if at all) to a record carrying the id. -/
def ridOkB (d : Dao) (kv : KV) (i : Nat) : Bool :=
  match kvLookup kv (MakeObjectVersionKey d i) with
  | none => true
  | some v =>
      (ResolveIdFromObjectCacheKey (MakeObjectKey d i v) == i) &&
      (match kvLookup kv (MakeObjectKey d i v) with
       | none => true
       | some s =>
           match d.deser s with
           | .ok r => r.id == i
           | .error _ => true)

/-- What one id resolves to in a quiescent state: the deserialized cached
body when version and body are present (a deserialization failure drops the
id), and the SQL row when version or body is absent. -/
def resolveOf (d : Dao) (kv : KV) (i : Nat) : Option Rec :=
  match kvLookup kv (MakeObjectVersionKey d i) with
  | none => d.sqlTable.find? (fun r => r.id == i)
  | some v =>
      match kvLookup kv (MakeObjectKey d i v) with
      | none => d.sqlTable.find? (fun r => r.id == i)
      | some s => ((d.deser s)).toOption

theorem filterMap_graph_sublist {α β : Type u} (f : α → Option β) (l : List α) :
    List.Sublist ((l.filterMap (fun a => ((f a)).map (fun b => (a, b)))).map Prod.fst) l := by
  induction l with
  | nil => exact List.Sublist.refl []
  | cons a l ih =>
    rw [List.filterMap_cons]
    cases hfa : f a with
    | none => exact List.Sublist.cons a ih
    | some b =>
        dsimp only [Option.map_some']
        rw [List.map_cons]
        exact List.Sublist.cons₂ a ih

theorem nodup_map_filterMap {α β γ : Type u} (l : List α) (f : α → Option β) (g : β → γ)
    (k : α → γ) (hk : (l.map k).Nodup)
    (hfg : ∀ a ∈ l, ∀ b, f a = some b → g b = k a) :
    ((l.filterMap f).map g).Nodup := by
  induction l with
  | nil => exact List.nodup_nil
  | cons a l ih =>
    have hk' : (l.map k).Nodup := (List.nodup_cons.1 (by simpa using hk)).2
    have hka : k a ∉ l.map k := (List.nodup_cons.1 (by simpa using hk)).1
    rw [List.filterMap_cons]
    cases hfa : f a with
    | none => exact ih hk' (fun x hx => hfg x (List.mem_cons_of_mem a hx))
    | some b =>
        rw [List.map_cons]
        refine List.nodup_cons.2 ⟨?_, ih hk' (fun x hx => hfg x (List.mem_cons_of_mem a hx))⟩
        intro hmem
        rcases List.mem_map.1 hmem with ⟨c, hc, hgc⟩
        rcases List.mem_filterMap.1 hc with ⟨x, hx, hfx⟩
        have h1 : g c = k x := hfg x (List.mem_cons_of_mem a hx) c hfx
        have h2 : g b = k a := hfg a (List.mem_cons_self a l) b hfa
        exact hka (by rw [← h2, ← hgc, h1]; exact List.mem_map_of_mem k hx)

/-- The found object-version entries of the batch fetch, in request order. -/
def objVersionItems (d : Dao) (kv : KV) (ids : List Nat) : List (String × String) :=
  (dedupKeys [] (ids.map (MakeObjectVersionKey d))).filterMap
    (fun k => ((kvLookup kv k)).map (fun v => (k, v)))

/-- The object-key map `GetObjectKeys` returns in the failure-free case. -/
def okeysOf (d : Dao) (kv : KV) (ids : List Nat) : List (Nat × String) :=
  ((objVersionItems d kv ids).map (fun p => (ResolveIdFromObjectVersionKey p.1, p.2))).map
    (fun p => (p.1, MakeObjectKey d p.1 p.2))

theorem mem_objVersionItems (d : Dao) (kv : KV) (ids : List Nat) (p : String × String) :
    p ∈ objVersionItems d kv ids ↔
      p.1 ∈ ids.map (MakeObjectVersionKey d) ∧ kvLookup kv p.1 = some p.2 := by
  unfold objVersionItems
  rw [List.mem_filterMap]
  constructor
  · rintro ⟨k, hk, hg⟩
    cases hlk : kvLookup kv k with
    | none => rw [hlk] at hg; cases hg
    | some w =>
        rw [hlk] at hg
        have := Option.some.inj hg
        subst this
        exact ⟨((mem_dedupKeys k [] _).1 hk).1, hlk⟩
  · rintro ⟨hk, hl⟩
    refine ⟨p.1, (mem_dedupKeys p.1 [] _).2 ⟨hk, by simp⟩, ?_⟩
    rw [hl]
    rfl

theorem getObjectKeys_spec (d : Dao) (kv : KV) (ids : List Nat)
    (hnf : kv.failing = [])
    (hrv : ∀ i ∈ ids, ResolveIdFromObjectVersionKey (MakeObjectVersionKey d i) = i) :
    GetObjectKeys d kv ids = .ok (okeysOf d kv ids) ∧
      ∀ i ∈ ids, keyOfList (okeysOf d kv ids) i =
        ((kvLookup kv (MakeObjectVersionKey d i))).map (MakeObjectKey d i) := by
  have hkf : ∀ k, kvFails kv k = false := by
    intro k
    unfold kvFails
    rw [hnf]
    rfl
  have hany : ((ids.map (MakeObjectVersionKey d)).any (kvFails kv)) = false := by
    rw [List.any_eq_false]
    intro x _
    simp [hkf]
  have hgm : kvGetMulti kv (ids.map (MakeObjectVersionKey d)) =
      .ok ((dedupKeys [] (ids.map (MakeObjectVersionKey d))).filterMap
        (fun k => ((kvLookup kv k)).map (fun v => (k, v)))) := by
    unfold kvGetMulti
    rw [hany]
    rfl
  constructor
  · unfold GetObjectKeys GetObjectVersions okeysOf objVersionItems
    rw [hgm]
  · intro i hi
    unfold keyOfList okeysOf
    rw [List.map_map]
    cases hv : kvLookup kv (MakeObjectVersionKey d i) with
    | none =>
        rw [show ((objVersionItems d kv ids).map
            ((fun p => (p.1, MakeObjectKey d p.1 p.2)) ∘
              (fun p => (ResolveIdFromObjectVersionKey p.1, p.2)))).find?
            (fun p => p.1 == i) = none from by
          rw [List.find?_eq_none]
          intro q hq hbeq
          rcases List.mem_map.1 hq with ⟨p, hp, rfl⟩
          rcases (mem_objVersionItems d kv ids p).1 hp with ⟨hpk, hpl⟩
          rcases List.mem_map.1 hpk with ⟨j, hj, hkj⟩
          have hq1 : ResolveIdFromObjectVersionKey p.1 = j := by rw [← hkj]; exact hrv j hj
          have : j = i := by
            have := beq_iff_eq.mp hbeq
            dsimp at this
            rw [hq1] at this
            exact this
          subst this
          rw [← hkj] at hpl
          rw [hv] at hpl
          cases hpl]
        rfl
    | some v =>
        rw [find?_eq_of_unique _ _ ((i, MakeObjectKey d i v))]
        · rfl
        · apply List.mem_map.2
          refine ⟨(MakeObjectVersionKey d i, v), ?_, ?_⟩
          · exact (mem_objVersionItems d kv ids _).2 ⟨List.mem_map_of_mem _ hi, hv⟩
          · dsimp only [Function.comp]
            rw [hrv i hi]
        · exact beq_self_eq_true i
        · intro x hx hbeq
          rcases List.mem_map.1 hx with ⟨p, hp, rfl⟩
          rcases (mem_objVersionItems d kv ids p).1 hp with ⟨hpk, hpl⟩
          rcases List.mem_map.1 hpk with ⟨j, hj, hkj⟩
          have hq1 : ResolveIdFromObjectVersionKey p.1 = j := by rw [← hkj]; exact hrv j hj
          have hji : j = i := by
            have := beq_iff_eq.mp hbeq
            dsimp at this
            rw [hq1] at this
            exact this
          subst hji
          rw [← hkj] at hpl
          rw [hv] at hpl
          have hp2 : p.2 = v := (Option.some.inj hpl).symm
          dsimp only [Function.comp]
          rw [hq1, hp2]

theorem except_toOption_eq_some {ε α : Type u} (e : Except ε α) (r : α) :
    e.toOption = some r ↔ e = .ok r := by
  cases e <;> simp [Except.toOption]

/-- Generic shape of a `GetMulti` result: the found `(key, value)` graph over
the distinct requested keys. -/
theorem mem_graphItems (kv : KV) (ks : List String) (p : String × String) :
    p ∈ (dedupKeys [] ks).filterMap (fun k => ((kvLookup kv k)).map (fun v => (k, v))) ↔
      p.1 ∈ ks ∧ kvLookup kv p.1 = some p.2 := by
  rw [List.mem_filterMap]
  constructor
  · rintro ⟨k, hk, hg⟩
    cases hlk : kvLookup kv k with
    | none => rw [hlk] at hg; cases hg
    | some w =>
        rw [hlk] at hg
        have := Option.some.inj hg
        subst this
        exact ⟨((mem_dedupKeys k [] _).1 hk).1, hlk⟩
  · rintro ⟨hk, hl⟩
    refine ⟨p.1, (mem_dedupKeys p.1 [] _).2 ⟨hk, by simp⟩, ?_⟩
    rw [hl]
    rfl

/-! Intermediate values of `getByIdsCore` in the failure-free case, written
out once so that the reorder proof can speak about them compactly. -/

def c1A0 (d : Dao) (kv : KV) (ids : List Nat) : List Nat :=
  ids.filter (fun i => ((kvLookup kv (MakeObjectVersionKey d i))).isNone)

def c1R (d : Dao) (kv : KV) (ids : List Nat) : List Nat :=
  ids.filter (fun i => ((kvLookup kv (MakeObjectVersionKey d i))).isSome)

def c1K (d : Dao) (kv : KV) (ids : List Nat) : List String :=
  (c1R d kv ids).filterMap
    (fun i => ((kvLookup kv (MakeObjectVersionKey d i))).map (MakeObjectKey d i))

def c1Items (d : Dao) (kv : KV) (ids : List Nat) : List (String × String) :=
  (dedupKeys [] (c1K d kv ids)).filterMap (fun k => ((kvLookup kv k)).map (fun v => (k, v)))

def c1Cache (d : Dao) (kv : KV) (ids : List Nat) : List Nat :=
  (c1Items d kv ids).map (fun p => ResolveIdFromObjectCacheKey p.1)

def c1Recs (d : Dao) (kv : KV) (ids : List Nat) : List Rec :=
  (c1Items d kv ids).filterMap (fun p => ((d.deser p.2)).toOption)

def c1Absent (d : Dao) (kv : KV) (ids : List Nat) : List Nat :=
  c1A0 d kv ids ++ (c1R d kv ids).filter (fun i => ! (c1Cache d kv ids).contains i)

theorem c1K_mem (d : Dao) (kv : KV) (ids : List Nat) (k : String) :
    k ∈ c1K d kv ids ↔ ∃ i, i ∈ ids ∧ ∃ v,
      kvLookup kv (MakeObjectVersionKey d i) = some v ∧ k = MakeObjectKey d i v := by
  unfold c1K c1R
  rw [List.mem_filterMap]
  constructor
  · rintro ⟨i, hi, hmap⟩
    have hi' : i ∈ ids := (List.mem_filter.1 hi).1
    cases hv : kvLookup kv (MakeObjectVersionKey d i) with
    | none => rw [hv] at hmap; cases hmap
    | some v =>
        rw [hv] at hmap
        exact ⟨i, hi', v, hv, (Option.some.inj hmap).symm⟩
  · rintro ⟨i, hi, v, hv, rfl⟩
    refine ⟨i, List.mem_filter.2 ⟨hi, by rw [hv]; rfl⟩, by rw [hv]; rfl⟩

theorem c1Items_mem (d : Dao) (kv : KV) (ids : List Nat) (p : String × String) :
    p ∈ c1Items d kv ids ↔ p.1 ∈ c1K d kv ids ∧ kvLookup kv p.1 = some p.2 :=
  mem_graphItems kv (c1K d kv ids) p

theorem c1Cache_mem (d : Dao) (kv : KV) (ids : List Nat)
    (hrc : ∀ i ∈ ids, ∀ v, kvLookup kv (MakeObjectVersionKey d i) = some v →
      ResolveIdFromObjectCacheKey (MakeObjectKey d i v) = i)
    (i : Nat) (hi : i ∈ ids) :
    i ∈ c1Cache d kv ids ↔ ∃ v,
      kvLookup kv (MakeObjectVersionKey d i) = some v ∧
      ((kvLookup kv (MakeObjectKey d i v))).isSome := by
  unfold c1Cache
  constructor
  · intro hmem
    rcases List.mem_map.1 hmem with ⟨p, hp, hres⟩
    rcases (c1Items_mem d kv ids p).1 hp with ⟨hpk, hpl⟩
    rcases (c1K_mem d kv ids p.1).1 hpk with ⟨j, hj, v, hv, hpkey⟩
    have hrj : ResolveIdFromObjectCacheKey p.1 = j := by
      rw [hpkey]
      exact hrc j hj v hv
    have hji : j = i := by rw [hrj] at hres; exact hres
    subst hji
    rw [hpkey] at hpl
    exact ⟨v, hv, by rw [hpl]; rfl⟩
  · rintro ⟨v, hv, hbs⟩
    cases hb : kvLookup kv (MakeObjectKey d i v) with
    | none => rw [hb] at hbs; cases hbs
    | some s =>
        have hk : MakeObjectKey d i v ∈ c1K d kv ids :=
          (c1K_mem d kv ids _).2 ⟨i, hi, v, hv, rfl⟩
        have hp : (MakeObjectKey d i v, s) ∈ c1Items d kv ids :=
          (c1Items_mem d kv ids _).2 ⟨hk, hb⟩
        have hmm := List.mem_map_of_mem (fun p => ResolveIdFromObjectCacheKey p.1) hp
        dsimp only at hmm
        rw [hrc i hi v hv] at hmm
        exact hmm

theorem c1Recs_mem (d : Dao) (kv : KV) (ids : List Nat) (r : Rec) :
    r ∈ c1Recs d kv ids ↔ ∃ i, i ∈ ids ∧ ∃ v s,
      kvLookup kv (MakeObjectVersionKey d i) = some v ∧
      kvLookup kv (MakeObjectKey d i v) = some s ∧ d.deser s = .ok r := by
  unfold c1Recs
  rw [List.mem_filterMap]
  constructor
  · rintro ⟨p, hp, hto⟩
    rcases (c1Items_mem d kv ids p).1 hp with ⟨hpk, hpl⟩
    rcases (c1K_mem d kv ids p.1).1 hpk with ⟨j, hj, v, hv, hpkey⟩
    rw [hpkey] at hpl
    exact ⟨j, hj, v, p.2, hv, hpl, (except_toOption_eq_some _ _).1 hto⟩
  · rintro ⟨i, hi, v, s, hv, hs, hd⟩
    refine ⟨(MakeObjectKey d i v, s), ?_, ?_⟩
    · exact (c1Items_mem d kv ids _).2 ⟨(c1K_mem d kv ids _).2 ⟨i, hi, v, hv, rfl⟩, hs⟩
    · dsimp only
      rw [hd]
      rfl

theorem c1Absent_mem (d : Dao) (kv : KV) (ids : List Nat)
    (hrc : ∀ i ∈ ids, ∀ v, kvLookup kv (MakeObjectVersionKey d i) = some v →
      ResolveIdFromObjectCacheKey (MakeObjectKey d i v) = i)
    (i : Nat) :
    i ∈ c1Absent d kv ids ↔ i ∈ ids ∧
      (kvLookup kv (MakeObjectVersionKey d i) = none ∨
        ∃ v, kvLookup kv (MakeObjectVersionKey d i) = some v ∧
          kvLookup kv (MakeObjectKey d i v) = none) := by
  unfold c1Absent
  rw [List.mem_append]
  constructor
  · intro h
    rcases h with h0 | h1
    · rcases List.mem_filter.1 h0 with ⟨hi, hn⟩
      refine ⟨hi, Or.inl ?_⟩
      cases hv : kvLookup kv (MakeObjectVersionKey d i) with
      | none => rfl
      | some v => rw [hv] at hn; cases hn
    · rcases List.mem_filter.1 h1 with ⟨hir, hnc⟩
      rcases List.mem_filter.1 hir with ⟨hi, hsome⟩
      cases hv : kvLookup kv (MakeObjectVersionKey d i) with
      | none => rw [hv] at hsome; cases hsome
      | some v =>
          refine ⟨hi, Or.inr ⟨v, rfl, ?_⟩⟩
          cases hb : kvLookup kv (MakeObjectKey d i v) with
          | none => rfl
          | some s =>
              exfalso
              have hmem : i ∈ c1Cache d kv ids :=
                (c1Cache_mem d kv ids hrc i hi).2 ⟨v, hv, by rw [hb]; rfl⟩
              rw [show ((c1Cache d kv ids).contains i) = true from
                List.elem_iff.2 hmem] at hnc
              cases hnc
  · rintro ⟨hi, h⟩
    rcases h with hnone | ⟨v, hv, hb⟩
    · exact Or.inl (List.mem_filter.2 ⟨hi, by rw [hnone]; rfl⟩)
    · refine Or.inr (List.mem_filter.2 ⟨List.mem_filter.2 ⟨hi, by rw [hv]; rfl⟩, ?_⟩)
      have hnmem : i ∉ c1Cache d kv ids := by
        intro hmem
        rcases (c1Cache_mem d kv ids hrc i hi).1 hmem with ⟨w, hw, hbs⟩
        have hwv : w = v := by
          rw [hv] at hw
          exact (Option.some.inj hw).symm
        subst hwv
        rw [hb] at hbs
        cases hbs
      rw [show ((c1Cache d kv ids).contains i) = false from by
        cases hc : (c1Cache d kv ids).contains i with
        | false => rfl
        | true => exact absurd (List.elem_iff.1 hc) hnmem]
      rfl

theorem c1Items_fst_nodup (d : Dao) (kv : KV) (ids : List Nat) :
    ((c1Items d kv ids).map Prod.fst).Nodup := by
  unfold c1Items
  exact (nodup_dedupKeys [] (c1K d kv ids)).sublist
    (filterMap_graph_sublist (kvLookup kv) (dedupKeys [] (c1K d kv ids)))

theorem c1Items_nodup (d : Dao) (kv : KV) (ids : List Nat) :
    (c1Items d kv ids).Nodup :=
  List.Nodup.of_map Prod.fst (c1Items_fst_nodup d kv ids)

theorem c1Cache_nodup (d : Dao) (kv : KV) (ids : List Nat)
    (hrc : ∀ i ∈ ids, ∀ v, kvLookup kv (MakeObjectVersionKey d i) = some v →
      ResolveIdFromObjectCacheKey (MakeObjectKey d i v) = i) :
    (c1Cache d kv ids).Nodup := by
  unfold c1Cache
  refine List.Nodup.map_on ?_ (c1Items_nodup d kv ids)
  rintro ⟨x1, x2⟩ hx ⟨y1, y2⟩ hy hxy
  dsimp only at hxy
  rcases (c1Items_mem d kv ids (x1, x2)).1 hx with ⟨hxk, hxl⟩
  rcases (c1K_mem d kv ids x1).1 hxk with ⟨i, hi, v, hv, hxkey⟩
  rcases (c1Items_mem d kv ids (y1, y2)).1 hy with ⟨hyk, hyl⟩
  rcases (c1K_mem d kv ids y1).1 hyk with ⟨j, hj, w, hw, hykey⟩
  have hri : ResolveIdFromObjectCacheKey x1 = i := by
    rw [hxkey]
    exact hrc i hi v hv
  have hrj : ResolveIdFromObjectCacheKey y1 = j := by
    rw [hykey]
    exact hrc j hj w hw
  have hij : i = j := by
    rw [← hri, ← hrj]
    exact hxy
  subst hij
  have hvw : v = w := by
    rw [hv] at hw
    exact Option.some.inj hw
  subst hvw
  have hk1 : x1 = y1 := by rw [hxkey, hykey]
  subst hk1
  have hk2 : x2 = y2 := by
    rw [hxl] at hyl
    exact Option.some.inj hyl
  subst hk2
  rfl

theorem c1Recs_id_nodup (d : Dao) (kv : KV) (ids : List Nat)
    (hrc : ∀ i ∈ ids, ∀ v, kvLookup kv (MakeObjectVersionKey d i) = some v →
      ResolveIdFromObjectCacheKey (MakeObjectKey d i v) = i)
    (hco : ∀ i ∈ ids, ∀ v s r, kvLookup kv (MakeObjectVersionKey d i) = some v →
      kvLookup kv (MakeObjectKey d i v) = some s → d.deser s = .ok r → r.id = i) :
    ((c1Recs d kv ids).map Rec.id).Nodup := by
  have hc := c1Cache_nodup d kv ids hrc
  unfold c1Cache at hc
  unfold c1Recs
  refine nodup_map_filterMap (c1Items d kv ids) (fun p => ((d.deser p.2)).toOption)
    Rec.id (fun p => ResolveIdFromObjectCacheKey p.1) hc ?_
  intro p hp r hto
  dsimp only at hto
  rcases (c1Items_mem d kv ids p).1 hp with ⟨hpk, hpl⟩
  rcases (c1K_mem d kv ids p.1).1 hpk with ⟨i, hi, v, hv, hpkey⟩
  have hid : r.id = i := by
    refine hco i hi v p.2 r hv ?_ ?_
    · rw [← hpkey]
      exact hpl
    · exact (except_toOption_eq_some _ _).1 hto
  dsimp only
  rw [hid, hpkey]
  exact (hrc i hi v hv).symm

theorem sqlGetByIds_id_nodup (d : Dao) (hnd : ((d.sqlTable.map Rec.id)).Nodup)
    (idsq : List Nat) : ((sqlGetByIds d idsq).map Rec.id).Nodup := by
  unfold sqlGetByIds
  exact hnd.sublist ((List.filter_sublist d.sqlTable).map Rec.id)

theorem c1Comb_id_nodup (d : Dao) (kv : KV) (ids : List Nat)
    (hrc : ∀ i ∈ ids, ∀ v, kvLookup kv (MakeObjectVersionKey d i) = some v →
      ResolveIdFromObjectCacheKey (MakeObjectKey d i v) = i)
    (hco : ∀ i ∈ ids, ∀ v s r, kvLookup kv (MakeObjectVersionKey d i) = some v →
      kvLookup kv (MakeObjectKey d i v) = some s → d.deser s = .ok r → r.id = i)
    (hnd : ((d.sqlTable.map Rec.id)).Nodup) :
    (((c1Recs d kv ids ++ sqlGetByIds d (c1Absent d kv ids))).map Rec.id).Nodup := by
  rw [List.map_append, List.nodup_append]
  refine ⟨c1Recs_id_nodup d kv ids hrc hco, sqlGetByIds_id_nodup d hnd _, ?_⟩
  intro a ha1 ha2
  rcases List.mem_map.1 ha1 with ⟨r, hr, hra⟩
  rcases List.mem_map.1 ha2 with ⟨t, ht, hta⟩
  rcases (c1Recs_mem d kv ids r).1 hr with ⟨i, hi, v, s, hv, hs, hdr⟩
  have hrid : r.id = i := hco i hi v s r hv hs hdr
  have htid : t.id ∈ c1Absent d kv ids := by
    unfold sqlGetByIds at ht
    have hcx := List.of_mem_filter ht
    exact List.elem_iff.1 hcx
  have hti2 : t.id = i := by
    rw [hta, ← hra]
    exact hrid
  rw [hti2] at htid
  rcases (c1Absent_mem d kv ids hrc i).1 htid with ⟨_, habs⟩
  rcases habs with hnone | ⟨w, hw, hb⟩
  · rw [hv] at hnone
    exact Option.noConfusion hnone
  · rw [hv] at hw
    have hwv : v = w := Option.some.inj hw
    rw [← hwv] at hb
    rw [hs] at hb
    exact Option.noConfusion hb

theorem c1Recs_find_none (d : Dao) (kv : KV) (ids : List Nat)
    (hco : ∀ i ∈ ids, ∀ v s r, kvLookup kv (MakeObjectVersionKey d i) = some v →
      kvLookup kv (MakeObjectKey d i v) = some s → d.deser s = .ok r → r.id = i)
    (i : Nat)
    (hnone : ∀ v s r, kvLookup kv (MakeObjectVersionKey d i) = some v →
      kvLookup kv (MakeObjectKey d i v) = some s → d.deser s ≠ .ok r) :
    (c1Recs d kv ids).find? (fun r => r.id == i) = none := by
  rw [List.find?_eq_none]
  intro r hr hbeq
  rcases (c1Recs_mem d kv ids r).1 hr with ⟨j, hj, v, s, hv, hs, hdr⟩
  have h1 : r.id = j := hco j hj v s r hv hs hdr
  have h2 : r.id = i := beq_iff_eq.mp hbeq
  have hji : j = i := by
    rw [← h1, h2]
  subst hji
  exact hnone v s r hv hs hdr

theorem c1Sql_find_none (d : Dao) (kv : KV) (ids : List Nat)
    (hrc : ∀ i ∈ ids, ∀ v, kvLookup kv (MakeObjectVersionKey d i) = some v →
      ResolveIdFromObjectCacheKey (MakeObjectKey d i v) = i)
    (i : Nat) (v s : String)
    (hv : kvLookup kv (MakeObjectVersionKey d i) = some v)
    (hb : kvLookup kv (MakeObjectKey d i v) = some s) :
    (sqlGetByIds d (c1Absent d kv ids)).find? (fun r => r.id == i) = none := by
  rw [List.find?_eq_none]
  intro x hx hbeq
  have hxid : x.id = i := beq_iff_eq.mp hbeq
  have hcont : x.id ∈ c1Absent d kv ids := by
    unfold sqlGetByIds at hx
    have hcx := List.of_mem_filter hx
    exact List.elem_iff.1 hcx
  rw [hxid] at hcont
  rcases (c1Absent_mem d kv ids hrc i).1 hcont with ⟨_, habs⟩
  rcases habs with hnone | ⟨w, hw, hbw⟩
  · rw [hv] at hnone
    exact Option.noConfusion hnone
  · rw [hv] at hw
    have hwv : v = w := Option.some.inj hw
    rw [← hwv] at hbw
    rw [hb] at hbw
    exact Option.noConfusion hbw

theorem c1Sql_find_eq (d : Dao) (kv : KV) (ids : List Nat)
    (hnd : ((d.sqlTable.map Rec.id)).Nodup)
    (i : Nat) (hia : i ∈ c1Absent d kv ids) :
    (sqlGetByIds d (c1Absent d kv ids)).find? (fun r => r.id == i) =
      d.sqlTable.find? (fun r => r.id == i) := by
  cases hsql : d.sqlTable.find? (fun r => r.id == i) with
  | none =>
    rw [List.find?_eq_none]
    intro x hx hbx
    have hxt : x ∈ d.sqlTable := by
      unfold sqlGetByIds at hx
      exact List.mem_of_mem_filter hx
    exact (List.find?_eq_none.1 hsql x hxt) hbx
  | some r =>
    have hrt : r ∈ d.sqlTable := List.mem_of_find?_eq_some hsql
    have hpq := List.find?_some hsql
    apply find?_eq_of_unique
    · unfold sqlGetByIds
      refine List.mem_filter.2 ⟨hrt, ?_⟩
      dsimp only
      rw [beq_iff_eq.mp hpq]
      exact List.elem_iff.2 hia
    · exact hpq
    · intro x hx hbx
      have hxt : x ∈ d.sqlTable := by
        unfold sqlGetByIds at hx
        exact List.mem_of_mem_filter hx
      apply List.inj_on_of_nodup_map hnd hxt hrt
      rw [beq_iff_eq.mp hbx, beq_iff_eq.mp hpq]

theorem c1_find_eq (d : Dao) (kv : KV) (ids : List Nat)
    (hrc : ∀ i ∈ ids, ∀ v, kvLookup kv (MakeObjectVersionKey d i) = some v →
      ResolveIdFromObjectCacheKey (MakeObjectKey d i v) = i)
    (hco : ∀ i ∈ ids, ∀ v s r, kvLookup kv (MakeObjectVersionKey d i) = some v →
      kvLookup kv (MakeObjectKey d i v) = some s → d.deser s = .ok r → r.id = i)
    (hnd : ((d.sqlTable.map Rec.id)).Nodup)
    (i : Nat) (hi : i ∈ ids) :
    ((c1Recs d kv ids ++ sqlGetByIds d (c1Absent d kv ids))).find?
        (fun r => r.id == i) = resolveOf d kv i := by
  have horn : ∀ (x : Option Rec), Option.or none x = x := fun x => rfl
  rw [List.find?_append]
  cases hv : kvLookup kv (MakeObjectVersionKey d i) with
  | none =>
    rw [c1Recs_find_none d kv ids hco i
      (fun w s r hv' _ => by rw [hv] at hv'; exact Option.noConfusion hv')]
    rw [horn]
    rw [c1Sql_find_eq d kv ids hnd i ((c1Absent_mem d kv ids hrc i).2 ⟨hi, Or.inl hv⟩)]
    unfold resolveOf
    rw [hv]
  | some v =>
    cases hb : kvLookup kv (MakeObjectKey d i v) with
    | none =>
      rw [c1Recs_find_none d kv ids hco i ?hn1]
      case hn1 =>
        intro w s r hv' hs'
        have hwv : w = v := by
          rw [hv] at hv'
          exact (Option.some.inj hv').symm
        rw [hwv, hb] at hs'
        exact fun _ => Option.noConfusion hs'
      rw [horn]
      rw [c1Sql_find_eq d kv ids hnd i
        ((c1Absent_mem d kv ids hrc i).2 ⟨hi, Or.inr ⟨v, hv, hb⟩⟩)]
      unfold resolveOf
      rw [hv]
      dsimp only
      rw [hb]
    | some s =>
      have hresv : resolveOf d kv i = ((d.deser s)).toOption := by
        unfold resolveOf
        rw [hv]
        dsimp only
        rw [hb]
      cases hd : d.deser s with
      | ok r =>
        have h1 : (c1Recs d kv ids).find? (fun r => r.id == i) = some r := by
          apply find?_eq_of_unique
          · exact (c1Recs_mem d kv ids r).2 ⟨i, hi, v, s, hv, hb, hd⟩
          · have hri : r.id = i := hco i hi v s r hv hb hd
            rw [hri]
            exact beq_self_eq_true i
          · intro x hx hbx
            rcases (c1Recs_mem d kv ids x).1 hx with ⟨j, hj, w, t, hwj, htj, hdj⟩
            have hxid : x.id = j := hco j hj w t x hwj htj hdj
            have hji : j = i := by
              rw [← hxid]
              exact beq_iff_eq.mp hbx
            subst hji
            have hwv : w = v := by
              rw [hv] at hwj
              exact (Option.some.inj hwj).symm
            subst hwv
            have hts : t = s := by
              rw [hb] at htj
              exact (Option.some.inj htj).symm
            subst hts
            rw [hd] at hdj
            exact (Except.ok.inj hdj).symm
        rw [h1, hresv, hd]
        rfl
      | error e =>
        have h1 : (c1Recs d kv ids).find? (fun r => r.id == i) = none := by
          apply c1Recs_find_none d kv ids hco i
          intro w t r hv' ht'
          have hwv : w = v := by
            rw [hv] at hv'
            exact (Option.some.inj hv').symm
          rw [hwv, hb] at ht'
          have hts : t = s := (Option.some.inj ht').symm
          rw [hts, hd]
          intro hcon
          exact Except.noConfusion hcon
        have h2 : (sqlGetByIds d (c1Absent d kv ids)).find? (fun r => r.id == i) = none :=
          c1Sql_find_none d kv ids hrc i v s hv hb
        rw [h1, h2, hresv, hd]
        rfl

theorem getByIdsCore_red (d : Dao) (kv : KV) (now : Int) (ids : List Nat)
    (hnf : kv.failing = [])
    (hkey : ∀ i ∈ ids, keyOfList (okeysOf d kv ids) i =
      ((kvLookup kv (MakeObjectVersionKey d i))).map (MakeObjectKey d i)) :
    getByIdsCore d kv now ids (okeysOf d kv ids) =
      if (c1Absent d kv ids).length > 0 then
        (.ok (reorderByIds ids (c1Recs d kv ids ++ sqlGetByIds d (c1Absent d kv ids))),
          SetOjectCaches d kv now (sqlGetByIds d (c1Absent d kv ids)))
      else (.ok (reorderByIds ids (c1Recs d kv ids)), kv) := by
  have hA0 : ids.filter (fun i => ((keyOfList (okeysOf d kv ids) i)).isNone) =
      c1A0 d kv ids := by
    unfold c1A0
    apply List.filter_congr
    intro i hi
    rw [hkey i hi]
    cases kvLookup kv (MakeObjectVersionKey d i) <;> rfl
  have hR : ids.filter (fun i => ((keyOfList (okeysOf d kv ids) i)).isSome) =
      c1R d kv ids := by
    unfold c1R
    apply List.filter_congr
    intro i hi
    rw [hkey i hi]
    cases kvLookup kv (MakeObjectVersionKey d i) <;> rfl
  have hKk : (ids.filter (fun i => ((keyOfList (okeysOf d kv ids) i)).isSome)).filterMap
      (keyOfList (okeysOf d kv ids)) = c1K d kv ids := by
    rw [hR]
    unfold c1K
    apply List.filterMap_congr
    intro i hi
    have hi' : i ∈ ids := by
      unfold c1R at hi
      exact (List.mem_filter.1 hi).1
    exact hkey i hi'
  have hany : ((c1K d kv ids).any (kvFails kv)) = false := by
    rw [List.any_eq_false]
    intro x _
    unfold kvFails
    rw [hnf]
    simp
  have hgm : kvGetMulti kv (c1K d kv ids) = .ok (c1Items d kv ids) := by
    unfold kvGetMulti c1Items
    rw [hany]
    rfl
  unfold getByIdsCore
  dsimp only
  rw [hKk, hgm]
  dsimp only
  rw [hA0, hR]
  rfl

/-- Quiescent object-cache state used for the batch-read witness. -/
def wVer : String := "100"

/-- Cached serialized body used for the batch-read witness. -/
def wBody : String := "1"

/-- Client state caching id 1 (version and body present) and nothing else. -/
def wkvC1 : KV :=
  { store := [(MakeObjectVersionKey wDao 1, wVer), (MakeObjectKey wDao 1 wVer, wBody)],
    failing := [] }

/-- C1: with a failure-free client, well-formed version keys, per-id cache
coherence, and distinct table ids, `GetByIds` returns exactly the input ids
mapped in input order to their resolution (the deserialized cached body when
version and body are present, the SQL row otherwise, dropping ids with
neither), and every returned record carries the id it was requested for. -/
theorem getByIds_input_order (d : Dao) (kv : KV) (now : Int) (ids : List Nat)
    (hnf : kv.failing = [])
    (hA : ids.all (vkeysOkB d) = true)
    (hB : ids.all (ridOkB d kv) = true)
    (hnd : ((d.sqlTable.map Rec.id)).Nodup) :
    ∃ kv2, GetByIds d kv now ids = (.ok (ids.filterMap (resolveOf d kv)), kv2) ∧
      ∀ i ∈ ids, ∀ r, resolveOf d kv i = some r → r.id = i := by
  have hrv : ∀ i ∈ ids, ResolveIdFromObjectVersionKey (MakeObjectVersionKey d i) = i := by
    intro i hi
    have h := List.all_eq_true.1 hA i hi
    unfold vkeysOkB at h
    exact beq_iff_eq.mp h
  have hball : ∀ i ∈ ids, ridOkB d kv i = true := fun i hi => List.all_eq_true.1 hB i hi
  have hrc : ∀ i ∈ ids, ∀ v, kvLookup kv (MakeObjectVersionKey d i) = some v →
      ResolveIdFromObjectCacheKey (MakeObjectKey d i v) = i := by
    intro i hi v hv
    have h := hball i hi
    unfold ridOkB at h
    rw [hv] at h
    dsimp only at h
    rw [Bool.and_eq_true] at h
    exact beq_iff_eq.mp h.1
  have hco : ∀ i ∈ ids, ∀ v s r, kvLookup kv (MakeObjectVersionKey d i) = some v →
      kvLookup kv (MakeObjectKey d i v) = some s → d.deser s = .ok r → r.id = i := by
    intro i hi v s r hv hs hd
    have h := hball i hi
    unfold ridOkB at h
    rw [hv] at h
    dsimp only at h
    rw [Bool.and_eq_true] at h
    have h2 := h.2
    rw [hs] at h2
    dsimp only at h2
    rw [hd] at h2
    exact beq_iff_eq.mp h2
  have hres : ∀ i ∈ ids, ∀ r, resolveOf d kv i = some r → r.id = i := by
    intro i hi r hr
    unfold resolveOf at hr
    cases hv : kvLookup kv (MakeObjectVersionKey d i) with
    | none =>
      rw [hv] at hr
      dsimp only at hr
      have hf := List.find?_some hr
      exact beq_iff_eq.mp hf
    | some v =>
      rw [hv] at hr
      dsimp only at hr
      cases hb : kvLookup kv (MakeObjectKey d i v) with
      | none =>
        rw [hb] at hr
        dsimp only at hr
        have hf := List.find?_some hr
        exact beq_iff_eq.mp hf
      | some s =>
        rw [hb] at hr
        dsimp only at hr
        exact hco i hi v s r hv hb ((except_toOption_eq_some _ _).1 hr)
  by_cases hlen : ids.length = 0
  · refine ⟨kv, ?_, hres⟩
    have hids : ids = [] := List.length_eq_zero.mp hlen
    subst hids
    rfl
  · obtain ⟨hok, hkey⟩ := getObjectKeys_spec d kv ids hnf hrv
    have hmain : GetByIds d kv now ids = getByIdsCore d kv now ids (okeysOf d kv ids) := by
      unfold GetByIds
      rw [if_neg hlen, hok]
    rw [hmain, getByIdsCore_red d kv now ids hnf hkey]
    by_cases habs : (c1Absent d kv ids).length > 0
    · rw [if_pos habs]
      refine ⟨SetOjectCaches d kv now (sqlGetByIds d (c1Absent d kv ids)), ?_, hres⟩
      have hordered : reorderByIds ids (c1Recs d kv ids ++ sqlGetByIds d (c1Absent d kv ids)) =
          ids.filterMap (resolveOf d kv) := by
        rw [reorderByIds_eq_find? ids _ (c1Comb_id_nodup d kv ids hrc hco hnd)]
        exact List.filterMap_congr (fun i hi => c1_find_eq d kv ids hrc hco hnd i hi)
      rw [hordered]
    · rw [if_neg habs]
      refine ⟨kv, ?_, hres⟩
      have habs0 : c1Absent d kv ids = [] := by
        cases hcab : c1Absent d kv ids with
        | nil => rfl
        | cons a l =>
            exfalso
            apply habs
            rw [hcab]
            exact Nat.succ_pos l.length
      have hsqlnil : sqlGetByIds d (c1Absent d kv ids) = [] := by
        rw [habs0]
        unfold sqlGetByIds
        apply List.filter_eq_nil_iff.2
        intro a ha
        simp
      have hordered : reorderByIds ids (c1Recs d kv ids) = ids.filterMap (resolveOf d kv) := by
        have hcomb := c1Comb_id_nodup d kv ids hrc hco hnd
        rw [hsqlnil, List.append_nil] at hcomb
        rw [reorderByIds_eq_find? ids _ hcomb]
        apply List.filterMap_congr
        intro i hi
        have h := c1_find_eq d kv ids hrc hco hnd i hi
        rw [hsqlnil, List.append_nil] at h
        exact h
      rw [hordered]

/-- Witness for C1: a state caching id 1, with ids 2 (no row) and 7 (a table
row) uncached, satisfies the hypotheses, and the theorem applies to it. -/
theorem getByIds_input_order_witness :
    ∃ kv2, GetByIds wDao wkvC1 0 [1, 2, 7] =
      (.ok ([1, 2, 7].filterMap (resolveOf wDao wkvC1)), kv2) ∧
      ∀ i ∈ [1, 2, 7], ∀ r, resolveOf wDao wkvC1 i = some r → r.id = i :=
  getByIds_input_order wDao wkvC1 0 [1, 2, 7] rfl (by decide) (by decide) (by decide)

end GormCache


